import Mathlib

/-!
Shallow embedding of the per-frame simulation loop of the PockerCraft.ai
repository (the `Screen` component of `src/App.tsx`, together with the
`BlockType` enum and `DEFAULT_BIOME` of `src/unnamed/part_000`).

JavaScript numbers are modelled as rationals (all arithmetic performed by the
loop is exact on the values that occur: small integers and tenths), the world
`number[][]` as `List (List Nat)`, and calls to `Math.random()` as reads from
an explicit stream `s : Nat -> Rat` of draws together with a running index,
threaded through the functions in exactly the order the source draws them.
`Math.floor` is `Int.floor`, `Math.ceil` is `Int.ceil`.
-/

namespace PocketCraft

/-! ### Block types (src/unnamed/part_000, `enum BlockType`) -/

def AIR : ℕ := 0
def DIRT : ℕ := 1
def GRASS : ℕ := 2
def STONE : ℕ := 3
def WOOD : ℕ := 4
def LEAVES : ℕ := 5
def BEDROCK : ℕ := 6
def ORE : ℕ := 7

/-! ### Game constants (src/App.tsx lines 31-34) -/

def TILE_SIZE : ℚ := 16
def CHUNK_WIDTH : ℕ := 64
def CHUNK_HEIGHT : ℕ := 48
def RENDER_SCALE : ℚ := 2

/-- `canvas width=320 height=240` (src/App.tsx lines 330-335). -/
def canvasW : ℚ := 320
def canvasH : ℚ := 240

/-! ### State (src/unnamed/part_000 `PlayerState`, `InputState`, `BiomeConfig`) -/

structure PlayerState where
  x : ℚ
  y : ℚ
  vx : ℚ
  vy : ℚ
  facingRight : Bool
  selectedBlock : ℕ
  deriving DecidableEq, Repr

structure InputState where
  left : Bool
  right : Bool
  up : Bool
  down : Bool
  actionA : Bool
  actionB : Bool
  deriving DecidableEq, Repr

/-- The numeric fields of `BiomeConfig`; the `name`, `skyColor` and
`blockColors` fields are strings used only for logging and fill styles and
play no part in the simulation. -/
structure BiomeConfig where
  gravity : ℚ
  terrainRoughness : ℚ
  treeDensity : ℚ
  deriving DecidableEq, Repr

/-- `DEFAULT_BIOME` (src/unnamed/part_000): gravity 0.5, roughness 0.5,
density 0.1. -/
def DEFAULT_BIOME : BiomeConfig := ⟨1/2, 1/2, 1/10⟩

/-! ### The world grid -/

/-- The world is `number[][]`, indexed `world[y][x]`. -/
abbrev World : Type := List (List ℕ)

/-- Read `world[y][x]` as a JavaScript property access: `none` when the row or
the cell is absent (JS `undefined`), including at negative indices. -/
def getCell (w : World) (y x : ℤ) : Option ℕ :=
  if 0 ≤ y ∧ 0 ≤ x then (w[y.toNat]?).bind fun row => row[x.toNat]? else none

/-- Write `world[y][x] = v`.  Every write performed by the source is
bounds-guarded, so the out-of-range no-op of `List.set` is never observed. -/
def setCell (w : World) (y x v : ℕ) : World :=
  w.set y ((w.getD y []).set x v)

/-- `world[y] && world[y][x] !== BlockType.AIR` (src/App.tsx line 182): a
missing row (JS `undefined`, falsy) yields `false`; a present row with a
missing cell yields `true` (`undefined !== 0`). -/
def solidAt (w : World) (y x : ℤ) : Bool :=
  if y < 0 then false
  else
    match w[y.toNat]? with
    | none => false
    | some row =>
      if x < 0 then true
      else
        match row[x.toNat]? with
        | none => true
        | some v => v != AIR

/-- The world has its generated shape: 48 rows of 64 columns. -/
def dimsOk (w : World) : Prop :=
  w.length = CHUNK_HEIGHT ∧ ∀ row ∈ w, row.length = CHUNK_WIDTH

instance : DecidablePred dimsOk := fun w => by
  unfold dimsOk; infer_instance

/-! ### Cell access lemmas -/

theorem length_setCell (w : World) (y x v : ℕ) : (setCell w y x v).length = w.length := by
  simp [setCell]

theorem dimsOk_setCell {w : World} (h : dimsOk w) (y x v : ℕ) : dimsOk (setCell w y x v) := by
  obtain ⟨h1, h2⟩ := h
  refine ⟨by simpa [setCell] using h1, ?_⟩
  intro row hrow
  unfold setCell at hrow
  by_cases hy : y < w.length
  · rcases List.mem_or_eq_of_mem_set hrow with h' | h'
    · exact h2 _ h'
    · subst h'
      rw [List.length_set, List.getD_eq_getElem?_getD, List.getElem?_eq_getElem hy]
      exact h2 _ (List.getElem_mem hy)
  · rw [List.set_eq_of_length_le (by omega)] at hrow
    exact h2 _ hrow

theorem getCell_setCell_ne (w : World) (y x v : ℕ) (i j : ℤ)
    (h : i ≠ (y : ℤ) ∨ j ≠ (x : ℤ)) :
    getCell (setCell w y x v) i j = getCell w i j := by
  unfold getCell setCell
  by_cases hij : 0 ≤ i ∧ 0 ≤ j
  · simp only [if_pos hij]
    by_cases hiy : i.toNat = y
    · have hj : j ≠ (x : ℤ) := by
        rcases h with h | h
        · exact absurd (by omega) h
        · exact h
      have hjx : x ≠ j.toNat := by omega
      subst hiy
      by_cases hylen : i.toNat < w.length
      · rw [List.getElem?_set_self hylen, List.getElem?_eq_getElem hylen]
        simp only [Option.bind_eq_bind, Option.some_bind]
        rw [List.getD_eq_getElem?_getD, List.getElem?_eq_getElem hylen]
        simp only [Option.getD_some]
        rw [List.getElem?_set_ne hjx]
      · rw [List.getElem?_eq_none (l := w) (by omega),
          List.getElem?_eq_none (by simpa using hylen)]
    · rw [List.getElem?_set_ne (by omega)]
  · simp [if_neg hij]

theorem getCell_setCell_eq {w : World} (hw : dimsOk w) {y x : ℕ} (v : ℕ)
    (hy : y < CHUNK_HEIGHT) (hx : x < CHUNK_WIDTH) :
    getCell (setCell w y x v) (y : ℤ) (x : ℤ) = some v := by
  obtain ⟨h1, h2⟩ := hw
  have hylen : y < w.length := by omega
  have hxlen : x < w[y].length := by
    rw [h2 _ (List.getElem_mem hylen)]; exact hx
  unfold getCell setCell
  have h0 : (0:ℤ) ≤ (y:ℤ) ∧ (0:ℤ) ≤ (x:ℤ) := by omega
  simp only [if_pos h0, Int.toNat_natCast]
  rw [List.getD_eq_getElem?_getD, List.getElem?_eq_getElem hylen]
  simp only [Option.getD_some]
  rw [List.getElem?_set_self (by simpa using hylen)]
  simp only [Option.bind_eq_bind, Option.some_bind]
  rw [List.getElem?_set_self (by simpa using hxlen)]

theorem getCell_none_of_low {w : World} {y x : ℤ} (h : y < 0 ∨ x < 0) :
    getCell w y x = none := by
  unfold getCell
  rw [if_neg]; omega

theorem getCell_none_of_high {w : World} (hw : dimsOk w) {y x : ℤ}
    (h : (CHUNK_HEIGHT : ℤ) ≤ y ∨ (CHUNK_WIDTH : ℤ) ≤ x) :
    getCell w y x = none := by
  unfold getCell
  by_cases h0 : 0 ≤ y ∧ 0 ≤ x
  · simp only [if_pos h0]
    obtain ⟨h1, h2⟩ := hw
    rcases h with h | h
    · rw [List.getElem?_eq_none (by omega)]; rfl
    · by_cases hy : y.toNat < w.length
      · rw [List.getElem?_eq_getElem hy]
        simp only [Option.bind_eq_bind, Option.some_bind]
        rw [List.getElem?_eq_none]
        rw [h2 _ (List.getElem_mem hy)]
        omega
      · rw [List.getElem?_eq_none (by omega)]; rfl
  · simp [if_neg h0]

theorem getCell_isSome {w : World} (hw : dimsOk w) {y x : ℤ}
    (hy0 : 0 ≤ y) (hy : y < CHUNK_HEIGHT) (hx0 : 0 ≤ x) (hx : x < CHUNK_WIDTH) :
    ∃ v, getCell w y x = some v := by
  obtain ⟨h1, h2⟩ := hw
  have hylen : y.toNat < w.length := by omega
  have hxlen : x.toNat < w[y.toNat].length := by
    rw [h2 _ (List.getElem_mem hylen)]; omega
  unfold getCell
  rw [if_pos ⟨hy0, hx0⟩, List.getElem?_eq_getElem hylen]
  simp only [Option.bind_eq_bind, Option.some_bind]
  exact ⟨_, List.getElem?_eq_getElem hxlen⟩

/-- On a well-shaped world, `solidAt` agrees with `getCell` being non-AIR. -/
theorem solidAt_eq_getCell {w : World} (hw : dimsOk w) {y x : ℤ}
    (hy0 : 0 ≤ y) (hy : y < CHUNK_HEIGHT) (hx0 : 0 ≤ x) (hx : x < CHUNK_WIDTH) :
    solidAt w y x = true ↔ ∃ v, getCell w y x = some v ∧ v ≠ AIR := by
  obtain ⟨v, hv⟩ := getCell_isSome hw hy0 hy hx0 hx
  have hylen : y.toNat < w.length := by
    obtain ⟨h1, _⟩ := hw; omega
  have hxlen : x.toNat < w[y.toNat].length := by
    obtain ⟨_, h2⟩ := hw
    rw [h2 _ (List.getElem_mem hylen)]; omega
  have hv2 : w[y.toNat][x.toNat] = v := by
    unfold getCell at hv
    rw [if_pos ⟨hy0, hx0⟩, List.getElem?_eq_getElem hylen] at hv
    simp only [Option.bind_eq_bind, Option.some_bind] at hv
    rw [List.getElem?_eq_getElem hxlen] at hv
    exact Option.some_injective _ hv
  unfold solidAt
  rw [if_neg (by omega : ¬ y < 0), List.getElem?_eq_getElem hylen]
  simp only [if_neg (by omega : ¬ x < 0), List.getElem?_eq_getElem hxlen, hv2, bne_iff_ne]
  constructor
  · intro h; exact ⟨v, hv, by simpa using h⟩
  · rintro ⟨v', hv'', hne⟩
    rw [hv] at hv''
    obtain rfl := Option.some_injective _ hv''
    simpa using hne

/-! ### Collision detection (src/App.tsx lines 163-186) -/

/-- Player half-width basis: `pW = TILE_SIZE * 0.6` (line 165). -/
def pW : ℚ := TILE_SIZE * (3/5)

/-- Player height: `pH = TILE_SIZE * 1.6` (line 166). -/
def pH : ℚ := TILE_SIZE * (8/5)

/-- `Math.floor((checkX - pW/2) / TILE_SIZE)` (line 170). -/
def colL (checkX : ℚ) : ℤ := ⌊(checkX - pW/2) / TILE_SIZE⌋

/-- `Math.floor((checkX + pW/2 - 0.1) / TILE_SIZE)` (line 171). -/
def colR (checkX : ℚ) : ℤ := ⌊(checkX + pW/2 - 1/10) / TILE_SIZE⌋

/-- `Math.floor((checkY - pH) / TILE_SIZE)` (line 172). -/
def rowT (checkY : ℚ) : ℤ := ⌊(checkY - pH) / TILE_SIZE⌋

/-- `Math.floor((checkY - 0.1) / TILE_SIZE)` (line 173). -/
def rowB (checkY : ℚ) : ℤ := ⌊(checkY - 1/10) / TILE_SIZE⌋

/-- The double `for` loop of lines 180-184: is some tile in the inclusive
rectangle `[t, b] x [l, r]` solid? -/
def anySolid (w : World) (t b l r : ℤ) : Bool :=
  (List.range (b + 1 - t).toNat).any fun dy =>
    (List.range (r + 1 - l).toNat).any fun dx =>
      solidAt w (t + dy) (l + dx)

/-- `checkCollision` (lines 168-186): bounds first (left/right/bottom make it
`true`, a negative top makes it `false` to allow jumping above the world),
then the tile scan. -/
def checkCollision (w : World) (checkX checkY : ℚ) : Bool :=
  let left := colL checkX
  let right := colR checkX
  let top := rowT checkY
  let bottom := rowB checkY
  if left < 0 ∨ (CHUNK_WIDTH : ℤ) ≤ right ∨ (CHUNK_HEIGHT : ℤ) ≤ bottom then true
  else if top < 0 then false
  else anySolid w top bottom left right

/-! ### Physics step (src/App.tsx lines 136-213) -/

/-- One physics/collision step: input-driven horizontal velocity with friction
(lines 138-146), gravity and terminal velocity (lines 149-150), vertical move
with snap-to-tile resolution (lines 189-201), horizontal move cancelled on
collision (lines 204-208), and the jump applied when a downward collision
occurred this frame (lines 211-213). -/
def physicsStep (g : ℚ) (w : World) (inp : InputState) (p : PlayerState) : PlayerState :=
  let vx1 : ℚ := if inp.left then -2 else if inp.right then 2 else p.vx * (4/5)
  let fr1 : Bool := if inp.left then false else if inp.right then true else p.facingRight
  let vy1 : ℚ := min (p.vy + g) 8
  let newX := p.x + vx1
  let newY := p.y + vy1
  let colY := checkCollision w p.x newY
  let onGround : Bool := colY && decide (vy1 > 0)
  let y2 : ℚ :=
    if colY then
      if vy1 > 0 then (⌊newY / TILE_SIZE⌋ : ℚ) * TILE_SIZE
      else (⌈newY / TILE_SIZE⌉ : ℚ) * TILE_SIZE + 1/10
    else newY
  let vy2 : ℚ := if colY then 0 else vy1
  let colX := checkCollision w newX y2
  let x2 : ℚ := if colX then p.x else newX
  let vx2 : ℚ := if colX then 0 else vx1
  let vy3 : ℚ := if inp.up && onGround then -6 else vy2
  { x := x2, y := y2, vx := vx2, vy := vy3, facingRight := fr1,
    selectedBlock := p.selectedBlock }

/-! ### Interaction step (src/App.tsx lines 215-258) -/

/-- JS `Array.prototype.indexOf`: first index of `b`, `-1` when absent. -/
def jsIndexOfAux : List ℕ → ℕ → ℕ → ℤ
  | [], _, _ => -1
  | a :: t, b, i => if a = b then (i : ℤ) else jsIndexOfAux t b (i + 1)

/-- The cycle list of line 250: `[DIRT, STONE, WOOD, GRASS, LEAVES]`. -/
def cycleTypes : List ℕ := [DIRT, STONE, WOOD, GRASS, LEAVES]

/-- `types[(types.indexOf(selectedBlock) + 1) % types.length]` (lines 250-252). -/
def cycleNext (b : ℕ) : ℕ :=
  cycleTypes.getD ((jsIndexOfAux cycleTypes b 0 + 1) % 5).toNat 0

/-- Target-point reach: `TILE_SIZE * 1.5` (line 219). -/
def reach : ℚ := TILE_SIZE * (3/2)

/-- The mine/place block of lines 216-258, returning the new world, player
and last-action timestamp.  `now` is the `Date.now()` reading of line 216. -/
def actionsStep (w : World) (p : PlayerState) (inp : InputState) (last now : ℚ) :
    World × PlayerState × ℚ :=
  if (inp.actionA || inp.actionB) && decide (now - last > 200) then
    let targetX := p.x + (if p.facingRight then reach else -reach)
    let targetY := p.y - pH * (1/2)
    let gx : ℤ := ⌊targetX / TILE_SIZE⌋
    let gy : ℤ := ⌊targetY / TILE_SIZE⌋
    if 0 ≤ gx ∧ gx < (CHUNK_WIDTH : ℤ) ∧ 0 ≤ gy ∧ gy < (CHUNK_HEIGHT : ℤ) then
      if inp.actionA then
        if getCell w gy gx ≠ some BEDROCK then (setCell w gy.toNat gx.toNat AIR, p, now)
        else (w, p, last)
      else if inp.actionB then
        if getCell w gy gx = some AIR then
          if ¬ checkCollision w targetX targetY then
            (setCell w gy.toNat gx.toNat p.selectedBlock, p, now)
          else (w, p, last)
        else (w, { p with selectedBlock := cycleNext p.selectedBlock }, now)
      else (w, p, last)
    else (w, p, last)
  else (w, p, last)

/-! ### Renderer camera (src/App.tsx lines 268-277) -/

/-- `maxCamX = CHUNK_WIDTH * TILE_SIZE - canvas.width / RENDER_SCALE` (line 272). -/
def maxCamX : ℚ := (CHUNK_WIDTH : ℚ) * TILE_SIZE - canvasW / RENDER_SCALE

/-- `maxCamY = CHUNK_HEIGHT * TILE_SIZE - canvas.height / RENDER_SCALE` (line 273). -/
def maxCamY : ℚ := (CHUNK_HEIGHT : ℚ) * TILE_SIZE - canvasH / RENDER_SCALE

/-- The clamped camera origin of lines 269-275. -/
def renderCam (p : PlayerState) : ℚ × ℚ :=
  let camX : ℚ := (⌊p.x - (canvasW / RENDER_SCALE) / 2⌋ : ℚ)
  let camY : ℚ := (⌊p.y - (canvasH / RENDER_SCALE) / 2⌋ : ℚ)
  (max 0 (min camX maxCamX), max 0 (min camY maxCamY))

/-! ### The per-frame update (src/App.tsx lines 127-322) -/

/-- The per-frame mutable state touched by `update`: the world ref, the player
ref, the last-action-time ref and the camera used for the blit. -/
structure Frame where
  world : World
  player : PlayerState
  last : ℚ
  cam : ℚ × ℚ
  deriving DecidableEq

/-- The whole `update` callback (lines 127-322) as one function, transcribed
linearly: physics and collision resolution, then mine/place, then the camera
for rendering.  `now` is the wall-clock `Date.now()` read at line 216. -/
def update (g : ℚ) (inp : InputState) (now : ℚ) (f : Frame) : Frame :=
  let p := f.player
  let w := f.world
  let vx1 : ℚ := if inp.left then -2 else if inp.right then 2 else p.vx * (4/5)
  let fr1 : Bool := if inp.left then false else if inp.right then true else p.facingRight
  let vy1 : ℚ := min (p.vy + g) 8
  let newX := p.x + vx1
  let newY := p.y + vy1
  let colY := checkCollision w p.x newY
  let onGround : Bool := colY && decide (vy1 > 0)
  let y2 : ℚ :=
    if colY then
      if vy1 > 0 then (⌊newY / TILE_SIZE⌋ : ℚ) * TILE_SIZE
      else (⌈newY / TILE_SIZE⌉ : ℚ) * TILE_SIZE + 1/10
    else newY
  let vy2 : ℚ := if colY then 0 else vy1
  let colX := checkCollision w newX y2
  let x2 : ℚ := if colX then p.x else newX
  let vx2 : ℚ := if colX then 0 else vx1
  let vy3 : ℚ := if inp.up && onGround then -6 else vy2
  let p1 : PlayerState :=
    { x := x2, y := y2, vx := vx2, vy := vy3, facingRight := fr1,
      selectedBlock := p.selectedBlock }
  let acted := actionsStep w p1 inp f.last now
  { world := acted.1, player := acted.2.1, last := acted.2.2, cam := renderCam acted.2.1 }

/-! ### The staged decomposition the spec describes -/

/-- Stage 1 of the spec's pipeline: the physics/collision step acting on a
frame. -/
def physicsStage (g : ℚ) (inp : InputState) (f : Frame) : Frame :=
  { f with player := physicsStep g f.world inp f.player }

/-- Stage 2: the interaction (mine/place) step acting on a frame. -/
def actionsStage (inp : InputState) (now : ℚ) (f : Frame) : Frame :=
  let acted := actionsStep f.world f.player inp f.last now
  { world := acted.1, player := acted.2.1, last := acted.2.2, cam := f.cam }

/-- Stage 3: the render step; of the drawing only the camera is state. -/
def renderStage (f : Frame) : Frame :=
  { f with cam := renderCam f.player }

/-- Modelled from the spec: "These run in strict sequence once per frame" —
the per-frame step as the literal composition physics, then interaction,
then render. -/
def updateStaged (g : ℚ) (inp : InputState) (now : ℚ) (f : Frame) : Frame :=
  renderStage (actionsStage inp now (physicsStage g inp f))

/-- The monolithic transcription and the staged pipeline agree. -/
theorem update_eq_staged (g : ℚ) (inp : InputState) (now : ℚ) (f : Frame) :
    update g inp now f = updateStaged g inp now f := by
  rfl

/-! ### Arithmetic helpers for the tile-coordinate floors -/

theorem le_floorDiv16 {m : ℤ} {a : ℚ} (h : 16 * (m : ℚ) ≤ a) : m ≤ ⌊a / 16⌋ := by
  rw [Int.le_floor, le_div_iff (by norm_num : (0:ℚ) < 16)]
  linarith

theorem floorDiv16_le {m : ℤ} {a : ℚ} (h : a < 16 * ((m : ℚ) + 1)) : ⌊a / 16⌋ ≤ m := by
  have h' : ⌊a / 16⌋ < m + 1 := by
    rw [Int.floor_lt]
    rw [div_lt_iff (by norm_num : (0:ℚ) < 16)]
    push_cast
    linarith
  omega

theorem floorDiv16_lb (a : ℚ) : 16 * (⌊a / 16⌋ : ℚ) ≤ a := by
  have h := Int.floor_le (a / 16)
  have h2 : 16 * (a / 16) = a := by ring
  nlinarith

theorem floorDiv16_ub (a : ℚ) : a < 16 * ((⌊a / 16⌋ : ℚ) + 1) := by
  have h := Int.lt_floor_add_one (a / 16)
  have h2 : 16 * (a / 16) = a := by ring
  nlinarith

theorem floorDiv16_eq {m : ℤ} {a : ℚ} (h1 : 16 * (m : ℚ) ≤ a)
    (h2 : a < 16 * ((m : ℚ) + 1)) : ⌊a / 16⌋ = m :=
  le_antisymm (floorDiv16_le h2) (le_floorDiv16 h1)

theorem ceilDiv16_ub (a : ℚ) : a ≤ 16 * (⌈a / 16⌉ : ℚ) := by
  have h := Int.le_ceil (a / 16)
  have h2 : 16 * (a / 16) = a := by ring
  nlinarith

theorem ceilDiv16_lb (a : ℚ) : 16 * ((⌈a / 16⌉ : ℚ) - 1) < a := by
  have h := Int.ceil_lt_add_one (a / 16)
  have h2 : 16 * (a / 16) = a := by ring
  nlinarith

/-! ### The AABB footprint and collision-check characterization -/

/-- The rows of `colL`..`rowB` spelled out over 16ths: `TILE_SIZE = 16`. -/
theorem rowT_def (cy : ℚ) : rowT cy = ⌊(cy - 128/5) / 16⌋ := by
  unfold rowT pH TILE_SIZE
  norm_num

theorem rowB_def (cy : ℚ) : rowB cy = ⌊(cy - 1/10) / 16⌋ := by
  unfold rowB TILE_SIZE
  norm_num

theorem colL_def (cx : ℚ) : colL cx = ⌊(cx - 24/5) / 16⌋ := by
  unfold colL pW TILE_SIZE
  norm_num

theorem colR_def (cx : ℚ) : colR cx = ⌊(cx + 47/10) / 16⌋ := by
  unfold colR pW TILE_SIZE
  congr 1
  ring

/-- The AABB is between one and two tile rows taller than wide: the top row
index is one or two below the bottom row index. -/
theorem rowT_between (cy : ℚ) : rowB cy - 2 ≤ rowT cy ∧ rowT cy ≤ rowB cy - 1 := by
  rw [rowT_def, rowB_def]
  have hlb := floorDiv16_lb (cy - 1/10)
  have hub := floorDiv16_ub (cy - 1/10)
  constructor
  · apply le_floorDiv16
    push_cast
    linarith
  · have : ⌊(cy - 128/5) / 16⌋ ≤ ⌊(cy - 1/10) / 16⌋ - 1 + 1 - 1 := by
      apply floorDiv16_le
      push_cast
      linarith
    omega

theorem rowB_mono {cy cy' : ℚ} (h : cy ≤ cy') : rowB cy ≤ rowB cy' := by
  rw [rowB_def, rowB_def]
  apply Int.floor_le_floor
  apply div_le_div_of_nonneg_right (by linarith) (by norm_num)

theorem rowT_mono {cy cy' : ℚ} (h : cy ≤ cy') : rowT cy ≤ rowT cy' := by
  rw [rowT_def, rowT_def]
  apply Int.floor_le_floor
  apply div_le_div_of_nonneg_right (by linarith) (by norm_num)

/-- Row range of a position snapped to a tile boundary `16 * k`. -/
theorem rowB_snap (k : ℤ) : rowB (16 * (k : ℚ)) = k - 1 := by
  rw [rowB_def]
  apply floorDiv16_eq <;> push_cast <;> linarith

theorem rowT_snap (k : ℤ) : rowT (16 * (k : ℚ)) = k - 2 := by
  rw [rowT_def]
  apply floorDiv16_eq <;> push_cast <;> linarith

/-- No tile of the player AABB anchored at `(cx, cy)` is solid. -/
def FreeAt (w : World) (cx cy : ℚ) : Prop :=
  ∀ i ∈ Finset.Icc (rowT cy) (rowB cy), ∀ j ∈ Finset.Icc (colL cx) (colR cx),
    solidAt w i j = false

theorem anySolid_eq_false_iff (w : World) (t b l r : ℤ) :
    anySolid w t b l r = false ↔
      ∀ i ∈ Finset.Icc t b, ∀ j ∈ Finset.Icc l r, solidAt w i j = false := by
  unfold anySolid
  rw [List.any_eq_false]
  constructor
  · intro h i hi j hj
    rw [Finset.mem_Icc] at hi hj
    have hdy : (i - t).toNat ∈ List.range (b + 1 - t).toNat := by
      rw [List.mem_range]; omega
    have h1 := h _ hdy
    rw [Bool.not_eq_true, List.any_eq_false] at h1
    have hdx : (j - l).toNat ∈ List.range (r + 1 - l).toNat := by
      rw [List.mem_range]; omega
    have h2 := h1 _ hdx
    have hi' : t + ((i - t).toNat : ℤ) = i := by omega
    have hj' : l + ((j - l).toNat : ℤ) = j := by omega
    rw [hi', hj'] at h2
    simpa using h2
  · intro h dy hdy
    rw [Bool.not_eq_true, List.any_eq_false]
    intro dx hdx
    rw [List.mem_range] at hdy hdx
    have h' := h (t + dy) (by rw [Finset.mem_Icc]; omega) (l + dx)
      (by rw [Finset.mem_Icc]; omega)
    simp [h']

instance (w : World) (cx cy : ℚ) : Decidable (FreeAt w cx cy) :=
  decidable_of_iff (anySolid w (rowT cy) (rowB cy) (colL cx) (colR cx) = false)
    (anySolid_eq_false_iff w _ _ _ _)

theorem checkCollision_eq_false_of_free {w : World} {cx cy : ℚ}
    (hfree : FreeAt w cx cy) (hl : 0 ≤ colL cx) (hr : colR cx < 64)
    (hb : rowB cy < 48) (ht : 0 ≤ rowT cy) :
    checkCollision w cx cy = false := by
  unfold checkCollision
  rw [if_neg (by push_cast [CHUNK_WIDTH, CHUNK_HEIGHT]; omega), if_neg (by omega)]
  rw [anySolid_eq_false_iff]
  exact hfree

theorem free_of_checkCollision_eq_false {w : World} {cx cy : ℚ}
    (h : checkCollision w cx cy = false) (ht : 0 ≤ rowT cy) :
    FreeAt w cx cy ∧ 0 ≤ colL cx ∧ colR cx < 64 ∧ rowB cy < 48 := by
  unfold checkCollision at h
  by_cases hbnd : colL cx < 0 ∨ (CHUNK_WIDTH : ℤ) ≤ colR cx ∨ (CHUNK_HEIGHT : ℤ) ≤ rowB cy
  · rw [if_pos hbnd] at h
    exact absurd h (by simp)
  · rw [if_neg hbnd, if_neg (by omega)] at h
    rw [anySolid_eq_false_iff] at h
    push_cast [CHUNK_WIDTH, CHUNK_HEIGHT] at hbnd
    exact ⟨h, by omega, by omega, by omega⟩

/-! ### Safety of the vertical snap resolution -/

/-- When a downward (or still) move from a non-overlapping, fully in-bounds
position collides, the snap to `floor(newY/16)*16` lands on a non-overlapping
position whose AABB rows are again inside the world. -/
theorem snap_down_free {w : World} {px py vy1 : ℚ}
    (hfree : FreeAt w px py) (hl : 0 ≤ colL px) (hr : colR px < 64)
    (ht : 0 ≤ rowT py) (hb : rowB py < 48)
    (hv0 : 0 ≤ vy1) (hv8 : vy1 ≤ 8)
    (hcol : checkCollision w px (py + vy1) = true) :
    FreeAt w px ((⌊(py + vy1) / 16⌋ : ℚ) * 16) ∧
      0 ≤ rowT ((⌊(py + vy1) / 16⌋ : ℚ) * 16) ∧
      rowB ((⌊(py + vy1) / 16⌋ : ℚ) * 16) < 48 := by
  obtain ⟨k, hk⟩ : ∃ k, ⌊(py + vy1) / 16⌋ = k := ⟨_, rfl⟩
  rw [hk]
  have hklb : 16 * (k : ℚ) ≤ py + vy1 := by rw [← hk]; exact floorDiv16_lb _
  have hkub : py + vy1 < 16 * ((k : ℚ) + 1) := by rw [← hk]; exact floorDiv16_ub _
  have hbolb : 16 * ((rowB py : ℤ) : ℚ) ≤ py - 1/10 := by
    rw [rowB_def]; exact floorDiv16_lb _
  have hboub : py - 1/10 < 16 * (((rowB py : ℤ) : ℚ) + 1) := by
    rw [rowB_def]; exact floorDiv16_ub _
  have htolb : 16 * ((rowT py : ℤ) : ℚ) ≤ py - 128/5 := by
    rw [rowT_def]; exact floorDiv16_lb _
  have htw := rowT_between py
  have hkbo : rowB py ≤ k := by
    rw [← hk]
    apply le_floorDiv16
    push_cast
    linarith
  have hkbo' : k ≤ rowB py + 1 := by
    rw [← hk]
    apply floorDiv16_le
    push_cast
    linarith
  have hsb : rowB ((k : ℚ) * 16) = k - 1 := by rw [mul_comm]; exact rowB_snap k
  have hst : rowT ((k : ℚ) * 16) = k - 2 := by rw [mul_comm]; exact rowT_snap k
  rcases (by omega : k = rowB py + 1 ∨ k = rowB py) with hk1 | hk1
  · refine ⟨?_, by omega, by omega⟩
    intro i hi j hj
    apply hfree i ?_ j hj
    rw [Finset.mem_Icc] at hi ⊢
    rw [hsb, hst] at hi
    omega
  · by_cases hto : rowT py = rowB py - 2
    · refine ⟨?_, by omega, by omega⟩
      intro i hi j hj
      apply hfree i ?_ j hj
      rw [Finset.mem_Icc] at hi ⊢
      rw [hsb, hst] at hi
      omega
    · have hto' : rowT py = rowB py - 1 := by omega
      exfalso
      have hk1Q : (k : ℚ) = ((rowB py : ℤ) : ℚ) := by exact_mod_cast hk1
      have hto'Q : ((rowT py : ℤ) : ℚ) = ((rowB py : ℤ) : ℚ) - 1 := by exact_mod_cast hto'
      have hrB : rowB (py + vy1) = rowB py := by
        rw [rowB_def]
        apply floorDiv16_eq
        · linarith
        · linarith [hkub, hk1Q]
      have hrT : rowT (py + vy1) = rowB py - 1 := by
        rw [rowT_def]
        apply floorDiv16_eq
        · push_cast
          linarith [htolb, hto'Q]
        · push_cast
          linarith [hkub, hk1Q]
      have hfree2 : FreeAt w px (py + vy1) := by
        intro i hi j hj
        apply hfree i ?_ j hj
        rw [Finset.mem_Icc] at hi ⊢
        rw [hrB, hrT] at hi
        omega
      have hfalse := checkCollision_eq_false_of_free hfree2 hl hr
        (by omega) (by omega)
      rw [hfalse] at hcol
      exact Bool.false_ne_true hcol

/-- The horizontal phase: whatever the horizontal check decides, the final
horizontal position keeps the (already resolved) vertical position
overlap-free. -/
theorem xphase_free {w : World} {px y2 nx : ℚ}
    (hfree2 : FreeAt w px y2) (ht2 : 0 ≤ rowT y2) :
    FreeAt w (if checkCollision w nx y2 then px else nx) y2 := by
  by_cases h : checkCollision w nx y2 = true
  · rw [if_pos h]
    exact hfree2
  · rw [if_neg (by simpa using h)]
    exact (free_of_checkCollision_eq_false (by simpa using h) ht2).1

/-- C2 (amended): for every 48x64 world and every player state whose AABB
(width 0.6 tiles, height 1.6 tiles, anchored at the feet point) overlaps no
non-AIR tile, whose AABB is inside the world bounds both horizontally and
vertically, and whose post-gravity vertical velocity is nonnegative (the
player is not moving upward), one physics/collision step — vertical move
resolved first with snap-to-tile, then horizontal move cancelled on
collision — again leaves the AABB overlapping no non-AIR tile. -/
theorem physicsStep_preserves_overlapFree (g : ℚ) (w : World) (inp : InputState)
    (p : PlayerState)
    (hfree : FreeAt w p.x p.y)
    (hl : 0 ≤ colL p.x) (hr : colR p.x < 64)
    (ht : 0 ≤ rowT p.y) (hb : rowB p.y < 48)
    (hdown : 0 ≤ p.vy + g) :
    FreeAt w (physicsStep g w inp p).x (physicsStep g w inp p).y := by
  have hv0 : 0 ≤ min (p.vy + g) 8 := le_min hdown (by norm_num)
  have hv8 : min (p.vy + g) 8 ≤ 8 := min_le_right _ _
  have hy : (physicsStep g w inp p).y =
      (if checkCollision w p.x (p.y + min (p.vy + g) 8) then
        (if min (p.vy + g) 8 > 0 then
          (⌊(p.y + min (p.vy + g) 8) / TILE_SIZE⌋ : ℚ) * TILE_SIZE
         else (⌈(p.y + min (p.vy + g) 8) / TILE_SIZE⌉ : ℚ) * TILE_SIZE + 1/10)
       else p.y + min (p.vy + g) 8) := rfl
  have hx : (physicsStep g w inp p).x =
      (if checkCollision w
          (p.x + (if inp.left then -2 else if inp.right then 2 else p.vx * (4/5)))
          ((physicsStep g w inp p).y) then p.x
       else p.x + (if inp.left then -2 else if inp.right then 2 else p.vx * (4/5))) := rfl
  rw [hx, hy]
  have hmain : FreeAt w p.x
      (if checkCollision w p.x (p.y + min (p.vy + g) 8) then
        (if min (p.vy + g) 8 > 0 then
          (⌊(p.y + min (p.vy + g) 8) / TILE_SIZE⌋ : ℚ) * TILE_SIZE
         else (⌈(p.y + min (p.vy + g) 8) / TILE_SIZE⌉ : ℚ) * TILE_SIZE + 1/10)
       else p.y + min (p.vy + g) 8) ∧
      0 ≤ rowT
      (if checkCollision w p.x (p.y + min (p.vy + g) 8) then
        (if min (p.vy + g) 8 > 0 then
          (⌊(p.y + min (p.vy + g) 8) / TILE_SIZE⌋ : ℚ) * TILE_SIZE
         else (⌈(p.y + min (p.vy + g) 8) / TILE_SIZE⌉ : ℚ) * TILE_SIZE + 1/10)
       else p.y + min (p.vy + g) 8) := by
    by_cases hcolY : checkCollision w p.x (p.y + min (p.vy + g) 8) = true
    · rw [if_pos hcolY]
      by_cases hpos : min (p.vy + g) 8 > 0
      · rw [if_pos hpos]
        have hT : TILE_SIZE = (16 : ℚ) := rfl
        rw [hT]
        obtain ⟨h1, h2, h3⟩ := snap_down_free hfree hl hr ht hb hv0 hv8 hcolY
        exact ⟨h1, h2⟩
      · exfalso
        have hveq : min (p.vy + g) 8 = 0 := le_antisymm (not_lt.mp hpos) hv0
        rw [hveq, add_zero] at hcolY
        have hfc := checkCollision_eq_false_of_free hfree hl hr hb ht
        rw [hfc] at hcolY
        exact Bool.false_ne_true hcolY
    · rw [if_neg (by simpa using hcolY)]
      have hcolY' : checkCollision w p.x (p.y + min (p.vy + g) 8) = false := by
        simpa using hcolY
      have htn : 0 ≤ rowT (p.y + min (p.vy + g) 8) :=
        le_trans ht (rowT_mono (by linarith))
      exact ⟨(free_of_checkCollision_eq_false hcolY' htn).1, htn⟩
  exact xphase_free hmain.1 hmain.2

/-! ### Concrete scenarios for the collision-invariant claim -/

/-- The all-AIR 48x64 grid built by lines 61-66 of `generateWorld`. -/
def blankWorld : World := List.replicate CHUNK_HEIGHT (List.replicate CHUNK_WIDTH AIR)

/-- A blank world with a 3x2 stone cluster at rows 6-8, columns 5-6. -/
def wStoneBlock : World :=
  setCell (setCell (setCell (setCell (setCell (setCell blankWorld
    6 5 STONE) 6 6 STONE) 7 5 STONE) 7 6 STONE) 8 5 STONE) 8 6 STONE

/-- A player below the stone cluster, overlapping nothing, moving up fast. -/
def pRising : PlayerState :=
  { x := 100, y := 328, vx := 0, vy := -200, facingRight := true, selectedBlock := DIRT }

/-- A player below the stone cluster, at rest. -/
def pResting : PlayerState :=
  { x := 100, y := 328, vx := 0, vy := 0, facingRight := true, selectedBlock := DIRT }

/-- No key held. -/
def inputsNone : InputState := ⟨false, false, false, false, false, false⟩

section
attribute [local semireducible] Rat.add Rat.mul Rat.inv Rat.sub Rat.ofScientific

/-- C2 counterexample: a player whose AABB overlaps no non-AIR tile and is
inside the horizontal world bounds, yet after one physics/collision step the
AABB does overlap a non-AIR tile: moving up at 200 px/frame into a stone
ceiling, the upward snap (`Math.ceil` branch, line 197) lands the player
inside the stone. -/
theorem physicsStep_overlapFree_counterexample :
    FreeAt wStoneBlock pRising.x pRising.y ∧
      0 ≤ colL pRising.x ∧ colR pRising.x < 64 ∧
      ¬ FreeAt wStoneBlock (physicsStep (1/2) wStoneBlock inputsNone pRising).x
        (physicsStep (1/2) wStoneBlock inputsNone pRising).y := by
  decide

/-- Witness for the amended C2 theorem: a resting player under gravity in the
same world, with every hypothesis discharged at the concrete input. -/
theorem physicsStep_preserves_overlapFree_witness :
    FreeAt wStoneBlock pResting.x pResting.y ∧
      FreeAt wStoneBlock (physicsStep (1/2) wStoneBlock inputsNone pResting).x
        (physicsStep (1/2) wStoneBlock inputsNone pResting).y :=
  ⟨by decide,
    physicsStep_preserves_overlapFree (1/2) wStoneBlock inputsNone pResting
      (by decide) (by decide) (by decide) (by decide) (by decide) (by decide)⟩

end

/-! ### C9: the camera clamp -/

/-- C9: for every player position the camera origin used for the tile blit
satisfies `0 <= camX <= 64*16 - 160` and `0 <= camY <= 48*16 - 120`: the
160x120 view window (the 320x240 canvas at render scale 2) never extends
outside the world rectangle. -/
theorem renderCam_clamped (p : PlayerState) :
    0 ≤ (renderCam p).1 ∧ (renderCam p).1 ≤ (64 : ℚ) * 16 - 160 ∧
      0 ≤ (renderCam p).2 ∧ (renderCam p).2 ≤ (48 : ℚ) * 16 - 120 := by
  unfold renderCam
  refine ⟨le_max_left _ _, ?_, le_max_left _ _, ?_⟩
  · apply max_le (by norm_num)
    apply le_trans (min_le_right _ _)
    norm_num [maxCamX, CHUNK_WIDTH, TILE_SIZE, canvasW, RENDER_SCALE]
  · apply max_le (by norm_num)
    apply le_trans (min_le_right _ _)
    norm_num [maxCamY, CHUNK_HEIGHT, TILE_SIZE, canvasH, RENDER_SCALE]

/-! ### C10: the per-frame stage sequence -/

/-- C10: the per-frame update function equals the sequential composition of
the physics/collision step, then the interaction (mine/place) step, then the
render step, in that order. -/
theorem update_strict_stage_sequence (g : ℚ) (inp : InputState) (now : ℚ) (f : Frame) :
    update g inp now f = renderStage (actionsStage inp now (physicsStage g inp f)) :=
  update_eq_staged g inp now f

/-! ### C5: the velocity rules of the physics step -/

/-- C5: in every physics step the vertical velocity used for the move is
`min (vy + gravity) 8` (gravity, then terminal-velocity cap), holding left or
right sets the horizontal velocity to -2 or +2 (left taking precedence) while
holding neither multiplies it by the friction factor 0.8, and pressing up
while on ground (a downward collision this frame) sets the vertical velocity
to -6; the hypothesis only excludes the horizontal velocity being zeroed by a
wall. -/
theorem physicsStep_velocity_rules (g : ℚ) (w : World) (inp : InputState) (p : PlayerState)
    (hX : checkCollision w
        (p.x + (if inp.left then -2 else if inp.right then 2 else p.vx * (4/5)))
        ((physicsStep g w inp p).y) = false) :
    (physicsStep g w inp p).vx
        = (if inp.left then -2 else if inp.right then 2 else p.vx * (4/5)) ∧
    (physicsStep g w inp p).vy
        = (if inp.up = true ∧ checkCollision w p.x (p.y + min (p.vy + g) 8) = true
              ∧ 0 < min (p.vy + g) 8 then -6
           else if checkCollision w p.x (p.y + min (p.vy + g) 8) = true then 0
           else min (p.vy + g) 8) := by
  constructor
  · have hvx : (physicsStep g w inp p).vx =
        (if checkCollision w
            (p.x + (if inp.left then -2 else if inp.right then 2 else p.vx * (4/5)))
            ((physicsStep g w inp p).y) then (0 : ℚ)
         else (if inp.left then -2 else if inp.right then 2 else p.vx * (4/5))) := rfl
    rw [hvx, hX]
    simp
  · have hvy : (physicsStep g w inp p).vy =
        (if inp.up && (checkCollision w p.x (p.y + min (p.vy + g) 8)
              && decide (min (p.vy + g) 8 > 0)) then (-6 : ℚ)
         else if checkCollision w p.x (p.y + min (p.vy + g) 8) then 0
         else min (p.vy + g) 8) := rfl
    rw [hvy]
    by_cases hup : inp.up = true <;>
      by_cases hcol : checkCollision w p.x (p.y + min (p.vy + g) 8) = true <;>
      by_cases hv : 0 < min (p.vy + g) 8 <;>
      simp [hup, hcol, hv]

/-! ### C1: wall-clock dependence of the frame step -/

/-- The interaction step depends on the wall clock only through the cooldown
comparison `now - last > 200` (and through the stored timestamp, which is not
part of the world/player outcome). -/
theorem actionsStep_now_congr (w : World) (p : PlayerState) (inp : InputState) (last : ℚ)
    {now₁ now₂ : ℚ} (h : (now₁ - last > 200) ↔ (now₂ - last > 200)) :
    (actionsStep w p inp last now₁).1 = (actionsStep w p inp last now₂).1 ∧
      (actionsStep w p inp last now₁).2.1 = (actionsStep w p inp last now₂).2.1 := by
  unfold actionsStep
  by_cases ht : now₁ - last > 200
  · have ht2 := h.mp ht
    simp only [decide_eq_true ht, decide_eq_true ht2, Bool.and_true]
    split_ifs <;> simp
  · have ht2 : ¬ (now₂ - last > 200) := fun hh => ht (h.mpr hh)
    simp only [decide_eq_false ht, decide_eq_false ht2, Bool.and_false]
    simp

/-- C1 (amended): two runs of the per-frame update from the same world grid,
player state, selected block, last-action timestamp and input state produce
identical world grids and player states, provided the runs agree on whether
the wall clock puts them past the 200 ms action cooldown; the `Date.now()`
reading is a hidden input, but it enters the world/player outcome only
through the comparison `now - lastActionTime > 200`. -/
theorem update_wallclock_determinism (g : ℚ) (inp : InputState) (f : Frame)
    (now₁ now₂ : ℚ) (h : (now₁ - f.last > 200) ↔ (now₂ - f.last > 200)) :
    (update g inp now₁ f).world = (update g inp now₂ f).world ∧
      (update g inp now₁ f).player = (update g inp now₂ f).player := by
  have hc := actionsStep_now_congr f.world (physicsStep g f.world inp f.player) inp f.last h
  exact ⟨hc.1, hc.2⟩

/-- A blank world with a stone at row 19, column 7: the cell the mining reach
of a player standing at (100, 328.5) selects. -/
def wMineTarget : World := setCell blankWorld 19 7 STONE

/-- Only the A (mine) button held. -/
def inputsMine : InputState := ⟨false, false, false, false, true, false⟩

/-- A frame about to mine: resting player, stone in reach, cooldown clear. -/
def frameMine : Frame := ⟨wMineTarget, pResting, 0, (0, 0)⟩

section
attribute [local semireducible] Rat.add Rat.mul Rat.inv Rat.sub Rat.ofScientific

/-- C1 counterexample: the same world grid, player state, selected block,
last-action timestamp and input state, but two wall-clock readings (300 ms
and 100 ms after the last action), give different resulting worlds: the run
past the cooldown mines the stone, the other leaves it. -/
theorem update_wallclock_counterexample :
    ¬ ((update (1/2) inputsMine 300 frameMine).world
          = (update (1/2) inputsMine 100 frameMine).world ∧
       (update (1/2) inputsMine 300 frameMine).player
          = (update (1/2) inputsMine 100 frameMine).player) := by
  decide

/-- Witness for the amended C1 theorem at two distinct wall-clock readings on
the same side of the cooldown. -/
theorem update_wallclock_determinism_witness :
    (((300 : ℚ) - frameMine.last > 200) ↔ ((250 : ℚ) - frameMine.last > 200)) ∧
      ((update (1/2) inputsMine 300 frameMine).world
          = (update (1/2) inputsMine 250 frameMine).world ∧
       (update (1/2) inputsMine 300 frameMine).player
          = (update (1/2) inputsMine 250 frameMine).player) :=
  ⟨by decide, update_wallclock_determinism (1/2) inputsMine frameMine 300 250 (by decide)⟩

/-- Witness for the C5 velocity-rules theorem: a resting player with no keys
held, in free fall under gravity 1/2. -/
theorem physicsStep_velocity_rules_witness :
    checkCollision wStoneBlock
        (pResting.x + (if inputsNone.left then -2 else if inputsNone.right then 2
          else pResting.vx * (4/5)))
        ((physicsStep (1/2) wStoneBlock inputsNone pResting).y) = false ∧
      ((physicsStep (1/2) wStoneBlock inputsNone pResting).vx
          = (if inputsNone.left then -2 else if inputsNone.right then 2
             else pResting.vx * (4/5)) ∧
       (physicsStep (1/2) wStoneBlock inputsNone pResting).vy
          = (if inputsNone.up = true
                ∧ checkCollision wStoneBlock pResting.x
                    (pResting.y + min (pResting.vy + 1/2) 8) = true
                ∧ 0 < min (pResting.vy + 1/2) 8 then -6
             else if checkCollision wStoneBlock pResting.x
                 (pResting.y + min (pResting.vy + 1/2) 8) = true then 0
             else min (pResting.vy + 1/2) 8)) :=
  ⟨by decide, physicsStep_velocity_rules (1/2) wStoneBlock inputsNone pResting (by decide)⟩

end

/-! ### C4: the interaction step writes at most the reach target -/

/-- The interaction step either leaves the world unchanged or writes a single
cell: the in-bounds target cell selected by the reach. -/
theorem actionsStep_world_cases (w : World) (p : PlayerState) (inp : InputState)
    (last now : ℚ) :
    (actionsStep w p inp last now).1 = w ∨
    ∃ v, (v = AIR ∨ v = p.selectedBlock) ∧
      (0 ≤ ⌊(p.y - pH * (1/2)) / TILE_SIZE⌋
          ∧ ⌊(p.y - pH * (1/2)) / TILE_SIZE⌋ < (CHUNK_HEIGHT : ℤ)
          ∧ 0 ≤ ⌊(p.x + (if p.facingRight then reach else -reach)) / TILE_SIZE⌋
          ∧ ⌊(p.x + (if p.facingRight then reach else -reach)) / TILE_SIZE⌋
              < (CHUNK_WIDTH : ℤ)) ∧
      (actionsStep w p inp last now).1 =
        setCell w (⌊(p.y - pH * (1/2)) / TILE_SIZE⌋).toNat
          (⌊(p.x + (if p.facingRight then reach else -reach)) / TILE_SIZE⌋).toNat v := by
  simp only [actionsStep]
  split_ifs <;>
    first
      | (left; rfl)
      | (right; exact ⟨AIR, Or.inl rfl, by tauto, rfl⟩)
      | (right; exact ⟨p.selectedBlock, Or.inr rfl, by tauto, rfl⟩)

/-- C4: when a frame's mining or placing changes a world cell, the changed
cell is exactly the grid cell containing the target point 1.5 tiles
(24 pixels) horizontally from the (post-physics) player in the facing
direction and half the player height (12.8 pixels) above the feet, and that
cell lies inside the 64x48 grid; hence no other cell changes and at most one
cell changes per frame. -/
theorem update_modifies_only_reach_target (g : ℚ) (inp : InputState) (now : ℚ)
    (f : Frame) (i j : ℤ)
    (hch : getCell (update g inp now f).world i j ≠ getCell f.world i j) :
    i = ⌊((physicsStep g f.world inp f.player).y - 64/5) / 16⌋ ∧
    j = ⌊((physicsStep g f.world inp f.player).x
          + (if (physicsStep g f.world inp f.player).facingRight
              then (24 : ℚ) else -24)) / 16⌋ ∧
    0 ≤ i ∧ i < 48 ∧ 0 ≤ j ∧ j < 64 := by
  have e1 : (physicsStep g f.world inp f.player).y - pH * (1/2)
      = (physicsStep g f.world inp f.player).y - 64/5 := by
    norm_num [pH, TILE_SIZE]
  have e2 : (if (physicsStep g f.world inp f.player).facingRight then reach else -reach)
      = (if (physicsStep g f.world inp f.player).facingRight then (24 : ℚ) else -24) := by
    split_ifs <;> norm_num [reach, TILE_SIZE]
  have e3 : TILE_SIZE = (16 : ℚ) := rfl
  have hcases := actionsStep_world_cases f.world (physicsStep g f.world inp f.player)
    inp f.last now
  rw [e1, e2, e3] at hcases
  rcases hcases with heq | ⟨v, _, hb, heq⟩
  · exfalso
    apply hch
    have hupd : (update g inp now f).world
        = (actionsStep f.world (physicsStep g f.world inp f.player) inp f.last now).1 := rfl
    rw [hupd, heq]
  · obtain ⟨hy0, hy1, hx0, hx1⟩ := hb
    have hy1' : ⌊((physicsStep g f.world inp f.player).y - 64/5) / 16⌋ < 48 := by
      simpa [CHUNK_HEIGHT] using hy1
    have hx1' : ⌊((physicsStep g f.world inp f.player).x
        + (if (physicsStep g f.world inp f.player).facingRight
            then (24 : ℚ) else -24)) / 16⌋ < 64 := by
      simpa [CHUNK_WIDTH] using hx1
    have hupd : (update g inp now f).world
        = (actionsStep f.world (physicsStep g f.world inp f.player) inp f.last now).1 := rfl
    rw [hupd, heq] at hch
    by_cases hij : i = ⌊((physicsStep g f.world inp f.player).y - 64/5) / 16⌋
        ∧ j = ⌊((physicsStep g f.world inp f.player).x
            + (if (physicsStep g f.world inp f.player).facingRight
                then (24 : ℚ) else -24)) / 16⌋
    · exact ⟨hij.1, hij.2, by omega, by omega, by omega, by omega⟩
    · exfalso
      apply hch
      apply getCell_setCell_ne
      rcases not_and_or.mp hij with hij' | hij'
      · left; omega
      · right; omega

section
attribute [local semireducible] Rat.add Rat.mul Rat.inv Rat.sub Rat.ofScientific

/-- Witness for the C4 theorem: the mining frame changes cell (19, 7), which
is exactly the reach target of the post-physics player. -/
theorem update_modifies_only_reach_target_witness :
    (getCell (update (1/2) inputsMine 300 frameMine).world 19 7
        ≠ getCell frameMine.world 19 7) ∧
      ((19 : ℤ) = ⌊((physicsStep (1/2) frameMine.world inputsMine frameMine.player).y
            - 64/5) / 16⌋ ∧
       (7 : ℤ) = ⌊((physicsStep (1/2) frameMine.world inputsMine frameMine.player).x
            + (if (physicsStep (1/2) frameMine.world inputsMine frameMine.player).facingRight
                then (24 : ℚ) else -24)) / 16⌋ ∧
       0 ≤ (19 : ℤ) ∧ (19 : ℤ) < 48 ∧ 0 ≤ (7 : ℤ) ∧ (7 : ℤ) < 64) :=
  ⟨by decide, update_modifies_only_reach_target (1/2) inputsMine 300 frameMine 19 7 (by decide)⟩

end

/-! ### C8: placing never overwrites -/

/-- C8: when the B action fires (B held, A not held, past the cooldown) on an
in-bounds target cell, the cell is written only if it was AIR: if the world
changed, the target cell was AIR; and if the target cell is not AIR the world
is left completely unchanged while the selected block advances cyclically
through [DIRT, STONE, WOOD, GRASS, LEAVES]. -/
theorem actionsStep_place_no_overwrite (w : World) (p : PlayerState) (inp : InputState)
    (last now : ℚ)
    (hA : inp.actionA = false) (hB : inp.actionB = true) (hcool : now - last > 200)
    (hgy0 : 0 ≤ ⌊(p.y - pH * (1/2)) / TILE_SIZE⌋)
    (hgy1 : ⌊(p.y - pH * (1/2)) / TILE_SIZE⌋ < (CHUNK_HEIGHT : ℤ))
    (hgx0 : 0 ≤ ⌊(p.x + (if p.facingRight then reach else -reach)) / TILE_SIZE⌋)
    (hgx1 : ⌊(p.x + (if p.facingRight then reach else -reach)) / TILE_SIZE⌋
        < (CHUNK_WIDTH : ℤ)) :
    ((actionsStep w p inp last now).1 ≠ w →
        getCell w (⌊(p.y - pH * (1/2)) / TILE_SIZE⌋)
          (⌊(p.x + (if p.facingRight then reach else -reach)) / TILE_SIZE⌋) = some AIR) ∧
    (getCell w (⌊(p.y - pH * (1/2)) / TILE_SIZE⌋)
          (⌊(p.x + (if p.facingRight then reach else -reach)) / TILE_SIZE⌋) ≠ some AIR →
        (actionsStep w p inp last now).1 = w ∧
        ∀ k : ℕ, k < 5 → p.selectedBlock = cycleTypes.getD k 0 →
          (actionsStep w p inp last now).2.1.selectedBlock
            = cycleTypes.getD ((k + 1) % 5) 0) := by
  simp only [actionsStep, hA, hB, decide_eq_true hcool, Bool.false_or, Bool.and_self,
    Bool.false_eq_true, eq_self_iff_true, if_true, if_false,
    if_pos (⟨hgx0, hgx1, hgy0, hgy1⟩ :
      0 ≤ ⌊(p.x + (if p.facingRight then reach else -reach)) / TILE_SIZE⌋
      ∧ ⌊(p.x + (if p.facingRight then reach else -reach)) / TILE_SIZE⌋ < (CHUNK_WIDTH : ℤ)
      ∧ 0 ≤ ⌊(p.y - pH * (1/2)) / TILE_SIZE⌋
      ∧ ⌊(p.y - pH * (1/2)) / TILE_SIZE⌋ < (CHUNK_HEIGHT : ℤ))]
  by_cases hair : getCell w (⌊(p.y - pH * (1/2)) / TILE_SIZE⌋)
      (⌊(p.x + (if p.facingRight then reach else -reach)) / TILE_SIZE⌋) = some AIR
  · refine ⟨fun _ => hair, fun hne => absurd hair hne⟩
  · rw [if_neg hair]
    refine ⟨fun hne => ?_, fun _ => ⟨rfl, ?_⟩⟩
    · exact absurd rfl hne
    · intro k hk hsel
      show cycleNext p.selectedBlock = cycleTypes.getD ((k + 1) % 5) 0
      rw [hsel]
      interval_cases k <;> decide

section
attribute [local semireducible] Rat.add Rat.mul Rat.inv Rat.sub Rat.ofScientific

/-- Only the B (place/cycle) button held. -/
def inputsPlace : InputState := ⟨false, false, false, false, false, true⟩

/-- Witness for the C8 theorem: B pressed with a stone in reach — the world
is unchanged and the selected block cycles from DIRT to STONE. -/
theorem actionsStep_place_no_overwrite_witness :
    ((actionsStep wMineTarget pResting inputsPlace 0 300).1 ≠ wMineTarget →
        getCell wMineTarget (⌊(pResting.y - pH * (1/2)) / TILE_SIZE⌋)
          (⌊(pResting.x + (if pResting.facingRight then reach else -reach))
              / TILE_SIZE⌋) = some AIR) ∧
    (getCell wMineTarget (⌊(pResting.y - pH * (1/2)) / TILE_SIZE⌋)
          (⌊(pResting.x + (if pResting.facingRight then reach else -reach))
              / TILE_SIZE⌋) ≠ some AIR →
        (actionsStep wMineTarget pResting inputsPlace 0 300).1 = wMineTarget ∧
        ∀ k : ℕ, k < 5 → pResting.selectedBlock = cycleTypes.getD k 0 →
          (actionsStep wMineTarget pResting inputsPlace 0 300).2.1.selectedBlock
            = cycleTypes.getD ((k + 1) % 5) 0) :=
  actionsStep_place_no_overwrite wMineTarget pResting inputsPlace 0 300
    rfl rfl (by decide) (by decide) (by decide) (by decide) (by decide)

end

/-! ### World generation (src/App.tsx lines 57-118)

`Math.random()` is modelled as reading `s i` from an ambient stream
`s : Nat -> Rat` and advancing the index `i`, in exactly the order the
source draws: per column the roughness draw, then (only when it steps) the
direction draw, then one draw per stone/ore cell, then the tree-density draw
on eligible columns and (only when a tree grows) the tree-height draw. -/

/-- A stream of `Math.random()` values: each draw lies in `[0, 1)`. -/
def GoodS (s : ℕ → ℚ) : Prop := ∀ n, 0 ≤ s n ∧ s n < 1

/-- `Math.random() > 0.9 ? BlockType.ORE : BlockType.STONE` (line 86). -/
def oreVal (q : ℚ) : ℕ := if q > 9/10 then ORE else STONE

/-- The fill loop of lines 80-90 for one column `x` with surface height `h`:
`n` rows remain, `y` is the current row. -/
def fillLoop (s : ℕ → ℚ) (x h : ℕ) : ℕ → ℕ → World → ℕ → World × ℕ
  | 0, _, w, i => (w, i)
  | n + 1, y, w, i =>
    if y = CHUNK_HEIGHT - 1 then fillLoop s x h n (y + 1) (setCell w y x BEDROCK) i
    else if y = h then fillLoop s x h n (y + 1) (setCell w y x GRASS) i
    else if h + 5 < y then fillLoop s x h n (y + 1) (setCell w y x (oreVal (s i))) (i + 1)
    else fillLoop s x h n (y + 1) (setCell w y x DIRT) i

/-- The trunk loop of lines 97-99: `n` writes remain, `i` is the loop
variable, writing WOOD at row `h - i` when that row is nonnegative. -/
def trunkLoop (x : ℕ) (h : ℤ) : ℕ → ℕ → World → World
  | 0, _, w => w
  | n + 1, i, w =>
    trunkLoop x h n (i + 1) (if 0 ≤ h - i then setCell w (h - i).toNat x WOOD else w)

/-- One leaf write of lines 103-105: bounds-guarded, only into AIR. -/
def leafAt (w : World) (ly lx : ℤ) : World :=
  if 0 ≤ lx ∧ lx < (CHUNK_WIDTH : ℤ) ∧ 0 ≤ ly then
    (if getCell w ly lx = some AIR then setCell w ly.toNat lx.toNat LEAVES else w)
  else w

/-- The leaf double loop of lines 101-107, `lx` from `x-1` to `x+1`, `ly`
from `h - th - 1` to `h - th`. -/
def leavesStep (w : World) (x : ℕ) (h : ℤ) (th : ℕ) : World :=
  [(h - th - 1, (x : ℤ) - 1), (h - th, (x : ℤ) - 1),
   (h - th - 1, (x : ℤ)), (h - th, (x : ℤ)),
   (h - th - 1, (x : ℤ) + 1), (h - th, (x : ℤ) + 1)].foldl
    (fun acc pr => leafAt acc pr.1 pr.2) w

/-- The tree block of lines 92-109: eligibility, density draw, tree height
`3 + Math.floor(Math.random() * 3)`, trunk, leaves. -/
def treeStep (s : ℕ → ℚ) (dens : ℚ) (x : ℕ) (h : ℤ) (w : World) (i : ℕ) : World × ℕ :=
  if 5 < x ∧ x < CHUNK_WIDTH - 5 ∧ getCell w h x = some GRASS then
    if s i < dens then
      let th : ℕ := (3 + ⌊s (i + 1) * 3⌋).toNat
      (leavesStep (trunkLoop x h th 1 w) x h th, i + 2)
    else (w, i + 1)
  else (w, i)

/-- One column of the generation loop (lines 71-110): random-walk step of the
height (lines 72-75), clamp to `[10, CHUNK_HEIGHT - 5]` (line 77), column
fill, tree placement. -/
def colStep (s : ℕ → ℚ) (rough dens : ℚ) (x : ℕ) (w : World) (h : ℤ) (i : ℕ) :
    World × ℤ × ℕ :=
  let h1 : ℤ := if s i < rough then h + (if s (i + 1) > 1/2 then 1 else -1) else h
  let i1 : ℕ := if s i < rough then i + 2 else i + 1
  let h2 : ℤ := max 10 (min ((CHUNK_HEIGHT : ℤ) - 5) h1)
  let fr := fillLoop s x h2.toNat (CHUNK_HEIGHT - h2.toNat) h2.toNat w i1
  let tr := treeStep s dens x h2 fr.1 fr.2
  (tr.1, h2, tr.2)

/-- The column loop over `x = 0 .. CHUNK_WIDTH - 1`. -/
def genLoop (s : ℕ → ℚ) (rough dens : ℚ) : ℕ → ℕ → World → ℤ → ℕ → World × ℤ × ℕ
  | 0, _, w, h, i => (w, h, i)
  | n + 1, x, w, h, i =>
    let st := colStep s rough dens x w h i
    genLoop s rough dens n (x + 1) st.1 st.2.1 st.2.2

/-- `generateWorld` (lines 57-118): blank grid, then the column loop, with
initial height `Math.floor(CHUNK_HEIGHT / 2) = 24`. -/
def generateWorld (bio : BiomeConfig) (s : ℕ → ℚ) : World :=
  (genLoop s bio.terrainRoughness bio.treeDensity CHUNK_WIDTH 0 blankWorld
    ((CHUNK_HEIGHT / 2 : ℕ) : ℤ) 0).1

/-- The player reset of lines 114-117. -/
def resetPlayerOnGenerate (p : PlayerState) : PlayerState :=
  { p with x := (CHUNK_WIDTH : ℚ) * TILE_SIZE * (1/2), y := 0, vx := 0, vy := 0 }

/-! ### Value classes of generated cells -/

/-- `STONE` or `ORE`: the deep-layer values of line 86. -/
def stoneOre (v : ℕ) : Prop := v = STONE ∨ v = ORE

/-- What may sit above the surface after tree placement. -/
def aboveOk (v : ℕ) : Prop := v = AIR ∨ v = WOOD ∨ v = LEAVES

/-- What may sit in a not-yet-filled column: AIR, or LEAVES spilt from a
neighbouring tree. -/
def preOk (v : ℕ) : Prop := v = AIR ∨ v = LEAVES

/-- The value the fill loop writes at row `y` of a column with surface `h`. -/
def fillVal (h y v : ℕ) : Prop :=
  if y = CHUNK_HEIGHT - 1 then v = BEDROCK
  else if y = h then v = GRASS
  else if h + 5 < y then stoneOre v
  else v = DIRT

/-- The final shape of one generated column with surface height `h`:
BEDROCK in the bottom row, GRASS at the surface, DIRT for the five rows
below the surface (where above the bottom row), STONE or ORE further down,
and only AIR, WOOD or LEAVES above the surface. -/
def colDesc (w : World) (x : ℕ) (h : ℤ) : Prop :=
  getCell w 47 x = some BEDROCK ∧
  getCell w h x = some GRASS ∧
  (∀ y : ℤ, h < y → y ≤ h + 5 → y < 47 → getCell w y x = some DIRT) ∧
  (∀ y : ℤ, h + 5 < y → y < 47 → ∃ v, getCell w y x = some v ∧ stoneOre v) ∧
  (∀ y : ℤ, 0 ≤ y → y < h → ∃ v, getCell w y x = some v ∧ aboveOk v)

/-- The loop invariant of the generation loop: after processing columns
`0 .. x - 1`, the world is well-shaped, the running height is in clamp
range and matches the recorded height of the last processed column, the
recorded heights walk in steps of at most one inside `[10, 43]`, every
processed column matches `colDesc`, and every unprocessed column holds only
AIR or spilt LEAVES. -/
def genInv (w : World) (x : ℕ) (h : ℤ) (hs : ℕ → ℤ) : Prop :=
  dimsOk w ∧ 10 ≤ h ∧ h ≤ 43 ∧
  (0 < x → hs (x - 1) = h) ∧
  (∀ c, c < x → 10 ≤ hs c ∧ hs c ≤ 43) ∧
  (∀ c, c + 1 < x → (hs (c + 1) - hs c).natAbs ≤ 1) ∧
  (∀ c, c < x → colDesc w c (hs c)) ∧
  (∀ c : ℕ, x ≤ c → c < 64 → ∀ y : ℤ, 0 ≤ y → y < 48 →
    ∃ v, getCell w y c = some v ∧ preOk v)

/-! ### Basic facts about cells and the blank grid -/

theorem getCell_some_bounds {w : World} (hw : dimsOk w) {y x : ℤ} {v : ℕ}
    (h : getCell w y x = some v) :
    0 ≤ y ∧ y < 48 ∧ 0 ≤ x ∧ x < 64 := by
  obtain ⟨h1, h2⟩ := hw
  unfold getCell at h
  by_cases h0 : 0 ≤ y ∧ 0 ≤ x
  · rw [if_pos h0] at h
    rcases hrow : w[y.toNat]? with _ | row
    · rw [hrow] at h; exact absurd h (by simp)
    · rw [hrow] at h
      simp only [Option.bind_eq_bind, Option.some_bind] at h
      have hylen : y.toNat < w.length := by
        by_contra hc
        rw [List.getElem?_eq_none (by omega)] at hrow
        exact absurd hrow (by simp)
      have hxlen : x.toNat < row.length := by
        by_contra hc
        rw [List.getElem?_eq_none (by omega)] at h
        exact absurd h (by simp)
      have hrowmem : row ∈ w := by
        have := List.getElem?_eq_getElem hylen
        rw [this] at hrow
        obtain rfl := Option.some_injective _ hrow.symm
        exact List.getElem_mem hylen
      have := h2 _ hrowmem
      unfold CHUNK_HEIGHT at h1
      unfold CHUNK_WIDTH at this
      omega
  · rw [if_neg h0] at h
    exact absurd h (by simp)

theorem dimsOk_blankWorld : dimsOk blankWorld := by
  constructor
  · simp [blankWorld]
  · intro row hrow
    rw [blankWorld, List.mem_replicate] at hrow
    rw [hrow.2]
    simp

theorem blankWorld_get {y x : ℤ} (hy0 : 0 ≤ y) (hy : y < 48) (hx0 : 0 ≤ x) (hx : x < 64) :
    getCell blankWorld y x = some AIR := by
  unfold getCell blankWorld
  rw [if_pos ⟨hy0, hx0⟩]
  rw [List.getElem?_replicate, if_pos (by unfold CHUNK_HEIGHT; omega)]
  simp only [Option.bind_eq_bind, Option.some_bind]
  rw [List.getElem?_replicate, if_pos (by unfold CHUNK_WIDTH; omega)]

/-! ### Characterizing the fill loop -/

theorem fillLoop_dims (s : ℕ → ℚ) (x h : ℕ) :
    ∀ (n y0 : ℕ) (w : World) (i : ℕ), dimsOk w → dimsOk (fillLoop s x h n y0 w i).1 := by
  intro n
  induction n with
  | zero => intro y0 w i hw; exact hw
  | succ n ih =>
    intro y0 w i hw
    simp only [fillLoop]
    split_ifs <;> exact ih _ _ _ (dimsOk_setCell hw _ _ _)

theorem fillLoop_get_other (s : ℕ → ℚ) (x h : ℕ) :
    ∀ (n y0 : ℕ) (w : World) (i : ℕ) (cy cx : ℤ),
      (cx ≠ (x : ℤ) ∨ cy < (y0 : ℤ) ∨ ((y0 : ℤ) + n) ≤ cy) →
      getCell (fillLoop s x h n y0 w i).1 cy cx = getCell w cy cx := by
  intro n
  induction n with
  | zero => intro y0 w i cy cx _; rfl
  | succ n ih =>
    intro y0 w i cy cx hne
    simp only [fillLoop]
    split_ifs <;>
      rw [ih _ _ _ _ _ (by omega), getCell_setCell_ne _ _ _ _ _ _ (by omega)]

theorem fillLoop_get_in (s : ℕ → ℚ) (x h : ℕ) (hx : x < CHUNK_WIDTH) :
    ∀ (n y0 : ℕ) (w : World) (i : ℕ), dimsOk w → y0 + n ≤ 48 →
      ∀ y : ℕ, y0 ≤ y → y < y0 + n →
        ∃ v, getCell (fillLoop s x h n y0 w i).1 (y : ℤ) (x : ℤ) = some v ∧ fillVal h y v := by
  intro n
  induction n with
  | zero => intro y0 w i _ _ y hy1 hy2; omega
  | succ n ih =>
    intro y0 w i hw hbound y hy1 hy2
    rcases eq_or_lt_of_le hy1 with heq | hylt
    · -- the row written at this iteration; later writes touch higher rows only
      subst heq
      simp only [fillLoop]
      have hyH : y0 < CHUNK_HEIGHT := by unfold CHUNK_HEIGHT; omega
      split_ifs with hb1 hb2 hb3
      · refine ⟨BEDROCK, ?_, ?_⟩
        · rw [fillLoop_get_other _ _ _ _ _ _ _ _ _ (by omega),
            getCell_setCell_eq hw _ hyH hx]
        · unfold fillVal; rw [if_pos hb1]
      · refine ⟨GRASS, ?_, ?_⟩
        · rw [fillLoop_get_other _ _ _ _ _ _ _ _ _ (by omega),
            getCell_setCell_eq hw _ hyH hx]
        · unfold fillVal; rw [if_neg hb1, if_pos hb2]
      · refine ⟨oreVal (s i), ?_, ?_⟩
        · rw [fillLoop_get_other _ _ _ _ _ _ _ _ _ (by omega),
            getCell_setCell_eq hw _ hyH hx]
        · unfold fillVal
          rw [if_neg hb1, if_neg hb2, if_pos hb3]
          unfold oreVal stoneOre
          split_ifs <;> simp
      · refine ⟨DIRT, ?_, ?_⟩
        · rw [fillLoop_get_other _ _ _ _ _ _ _ _ _ (by omega),
            getCell_setCell_eq hw _ hyH hx]
        · unfold fillVal; rw [if_neg hb1, if_neg hb2, if_neg hb3]
    · simp only [fillLoop]
      split_ifs <;>
        exact ih _ _ _ (dimsOk_setCell hw _ _ _) (by omega) y (by omega) (by omega)

/-! ### Characterizing the tree writes -/

theorem trunkLoop_dims (x : ℕ) (h : ℤ) :
    ∀ (cnt i0 : ℕ) (w : World), dimsOk w → dimsOk (trunkLoop x h cnt i0 w) := by
  intro cnt
  induction cnt with
  | zero => intro i0 w hw; exact hw
  | succ n ih =>
    intro i0 w hw
    simp only [trunkLoop]
    split_ifs <;> exact ih _ _ (by first | exact dimsOk_setCell hw _ _ _ | exact hw)

theorem trunkLoop_get (x : ℕ) (h : ℤ) (hx : x < CHUNK_WIDTH) (hh : h < CHUNK_HEIGHT) :
    ∀ (cnt i0 : ℕ) (w : World), dimsOk w → 1 ≤ i0 → ∀ cy cx : ℤ,
      getCell (trunkLoop x h cnt i0 w) cy cx = getCell w cy cx ∨
        (cx = (x : ℤ) ∧ 0 ≤ cy ∧ cy ≤ h - i0 ∧
          getCell (trunkLoop x h cnt i0 w) cy cx = some WOOD) := by
  intro cnt
  induction cnt with
  | zero => intro i0 w _ _ cy cx; left; rfl
  | succ n ih =>
    intro i0 w hw hi0 cy cx
    simp only [trunkLoop]
    by_cases hnn : 0 ≤ h - (i0 : ℤ)
    · rw [if_pos hnn]
      have hw' : dimsOk (setCell w (h - i0).toNat x WOOD) := dimsOk_setCell hw _ _ _
      rcases ih (i0 + 1) _ hw' (by omega) cy cx with h1 | h1
      · by_cases hcell : cy = h - (i0 : ℤ) ∧ cx = (x : ℤ)
        · right
          refine ⟨hcell.2, by omega, by omega, ?_⟩
          rw [h1, hcell.1, hcell.2]
          have : ((h - (i0 : ℤ)).toNat : ℤ) = h - (i0 : ℤ) := by omega
          rw [← this]
          exact getCell_setCell_eq hw WOOD (by omega) hx
        · left
          rw [h1, getCell_setCell_ne _ _ _ _ _ _ (by omega)]
      · right
        exact ⟨h1.1, h1.2.1, by omega, h1.2.2.2⟩
    · rw [if_neg hnn]
      rcases ih (i0 + 1) _ hw (by omega) cy cx with h1 | h1
      · left; exact h1
      · right; exact ⟨h1.1, h1.2.1, by omega, h1.2.2.2⟩

theorem leafAt_dims (w : World) (ly lx : ℤ) (hw : dimsOk w) : dimsOk (leafAt w ly lx) := by
  unfold leafAt
  split_ifs <;> first | exact dimsOk_setCell hw _ _ _ | exact hw

theorem leafAt_get (w : World) (ly lx : ℤ) (hw : dimsOk w) (cy cx : ℤ) :
    getCell (leafAt w ly lx) cy cx = getCell w cy cx ∨
      (cy = ly ∧ cx = lx ∧ getCell w cy cx = some AIR ∧
        getCell (leafAt w ly lx) cy cx = some LEAVES) := by
  unfold leafAt
  split_ifs with hg hair
  · by_cases hcell : cy = ly ∧ cx = lx
    · right
      obtain ⟨rfl, rfl⟩ := hcell
      obtain ⟨hy0, hy1, hx0, hx1⟩ := getCell_some_bounds hw hair
      refine ⟨rfl, rfl, hair, ?_⟩
      have hcy : ((cy.toNat : ℕ) : ℤ) = cy := by omega
      have hcx : ((cx.toNat : ℕ) : ℤ) = cx := by omega
      rw [← hcy, ← hcx]
      exact getCell_setCell_eq hw LEAVES (by unfold CHUNK_HEIGHT; omega)
        (by unfold CHUNK_WIDTH; omega)
    · left
      apply getCell_setCell_ne
      rcases not_and_or.mp hcell with hne | hne
      · left; omega
      · right; omega
  · left; rfl
  · left; rfl

theorem leavesFold_dims (L : List (ℤ × ℤ)) :
    ∀ w : World, dimsOk w →
      dimsOk (L.foldl (fun acc pr => leafAt acc pr.1 pr.2) w) := by
  induction L with
  | nil => intro w hw; exact hw
  | cons p t ih =>
    intro w hw
    exact ih _ (leafAt_dims _ _ _ hw)

theorem leavesFold_get (L : List (ℤ × ℤ)) :
    ∀ w : World, dimsOk w → ∀ cy cx : ℤ,
      getCell (L.foldl (fun acc pr => leafAt acc pr.1 pr.2) w) cy cx = getCell w cy cx ∨
        ((cy, cx) ∈ L ∧ getCell w cy cx = some AIR ∧
          getCell (L.foldl (fun acc pr => leafAt acc pr.1 pr.2) w) cy cx = some LEAVES) := by
  induction L with
  | nil => intro w _ cy cx; left; rfl
  | cons p t ih =>
    intro w hw cy cx
    simp only [List.foldl_cons]
    rcases ih (leafAt w p.1 p.2) (leafAt_dims _ _ _ hw) cy cx with h1 | h1
    · rcases leafAt_get w p.1 p.2 hw cy cx with h2 | h2
      · left; rw [h1, h2]
      · right
        refine ⟨List.mem_cons.mpr (Or.inl (Prod.ext_iff.mpr ⟨h2.1, h2.2.1⟩)),
          h2.2.2.1, ?_⟩
        rw [h1, h2.2.2.2]
    · rcases leafAt_get w p.1 p.2 hw cy cx with h2 | h2
      · right
        refine ⟨List.mem_cons_of_mem _ h1.1, by rw [← h2]; exact h1.2.1, h1.2.2⟩
      · right
        exact ⟨List.mem_cons_of_mem _ h1.1, h2.2.2.1, h1.2.2⟩

theorem treeStep_dims (s : ℕ → ℚ) (dens : ℚ) (x : ℕ) (h : ℤ) (w : World) (i : ℕ)
    (hw : dimsOk w) : dimsOk (treeStep s dens x h w i).1 := by
  unfold treeStep
  split_ifs <;>
    first
      | exact hw
      | exact leavesFold_dims _ _ (trunkLoop_dims _ _ _ _ _ hw)

/-- Every cell the tree block touches is strictly above the surface row and
within one column of the trunk; it becomes WOOD (trunk column only) or
LEAVES replacing AIR at depth at most `h - 3` when the draws are in range. -/
theorem treeStep_get (s : ℕ → ℚ) (dens : ℚ) (x : ℕ) (h : ℤ) (w : World) (i : ℕ)
    (hw : dimsOk w) (hx : x < CHUNK_WIDTH) (hh : h < CHUNK_HEIGHT)
    (hs : GoodS s) (cy cx : ℤ) :
    getCell (treeStep s dens x h w i).1 cy cx = getCell w cy cx ∨
      (0 ≤ cy ∧ cy ≤ h - 1 ∧ (x : ℤ) - 1 ≤ cx ∧ cx ≤ (x : ℤ) + 1 ∧
        ((cx = (x : ℤ) ∧ getCell (treeStep s dens x h w i).1 cy cx = some WOOD) ∨
         (getCell w cy cx = some AIR ∧ cy ≤ h - 3 ∧
           getCell (treeStep s dens x h w i).1 cy cx = some LEAVES))) := by
  unfold treeStep
  split_ifs with hg hd
  · -- a tree grows: trunk then leaves
    have hth3 : 3 ≤ (3 + ⌊s (i + 1) * 3⌋).toNat := by
      have h0 := (hs (i + 1)).1
      have : (0 : ℤ) ≤ ⌊s (i + 1) * 3⌋ := Int.floor_nonneg.mpr (by positivity)
      omega
    have hth5 : (3 + ⌊s (i + 1) * 3⌋).toNat ≤ 5 := by
      have h1 := (hs (i + 1)).2
      have h0 := (hs (i + 1)).1
      have : ⌊s (i + 1) * 3⌋ ≤ 2 := by
        have : ⌊s (i + 1) * 3⌋ < 3 := by
          rw [Int.floor_lt]
          push_cast
          nlinarith
        omega
      omega
    set th : ℕ := (3 + ⌊s (i + 1) * 3⌋).toNat with hthdef
    have hwt : dimsOk (trunkLoop x h th 1 w) := trunkLoop_dims _ _ _ _ _ hw
    simp only [leavesStep]
    rcases leavesFold_get _ (trunkLoop x h th 1 w) hwt cy cx with h1 | h1
    · rcases trunkLoop_get x h hx hh th 1 w hw (le_refl 1) cy cx with h2 | h2
      · left; rw [h1, h2]
      · right
        refine ⟨h2.2.1, by omega, by omega, by omega, Or.inl ⟨h2.1, ?_⟩⟩
        rw [h1, h2.2.2.2]
    · -- a leaf write: the cell was AIR in the trunk world, hence AIR originally
      have hmem := h1.1
      simp only [List.mem_cons, List.not_mem_nil, or_false, Prod.mk.injEq] at hmem
      have hcy : cy = h - th - 1 ∨ cy = h - th := by tauto
      have hcx : cx = (x : ℤ) - 1 ∨ cx = (x : ℤ) ∨ cx = (x : ℤ) + 1 := by tauto
      have hair : getCell w cy cx = some AIR := by
        rcases trunkLoop_get x h hx hh th 1 w hw (le_refl 1) cy cx with h2 | h2
        · rw [← h2]; exact h1.2.1
        · rw [h2.2.2.2] at h1
          exact absurd h1.2.1 (by simp [WOOD, AIR])
      obtain ⟨hy0, _, _, _⟩ := getCell_some_bounds hw hair
      right
      refine ⟨hy0, by omega, by omega, by omega, Or.inr ⟨hair, by omega, h1.2.2⟩⟩
  · left; rfl
  · left; rfl

/-! ### The per-column invariant step -/

theorem clamp_step (h d : ℤ) (h10 : 10 ≤ h) (h43 : h ≤ 43) (hd : d.natAbs ≤ 1) :
    10 ≤ max 10 (min 43 (h + d)) ∧ max 10 (min 43 (h + d)) ≤ 43 ∧
      (max 10 (min 43 (h + d)) - h).natAbs ≤ 1 := by
  rw [max_def, min_def]
  split_ifs <;> omega

theorem preOk_aboveOk {v : ℕ} (h : preOk v) : aboveOk v := by
  rcases h with h | h
  · exact Or.inl h
  · exact Or.inr (Or.inr h)

theorem stoneOre_ne_air {v : ℕ} (h : stoneOre v) : v ≠ AIR := by
  rcases h with h | h <;> subst h <;> decide

theorem colStep_inv (s : ℕ → ℚ) (rough dens : ℚ) (hsgood : GoodS s)
    (x : ℕ) (w : World) (h : ℤ) (i : ℕ) (hs : ℕ → ℤ)
    (hx : x < 64) (hinv : genInv w x h hs) :
    genInv (colStep s rough dens x w h i).1 (x + 1) (colStep s rough dens x w h i).2.1
      (fun c => if c = x then (colStep s rough dens x w h i).2.1 else hs c) := by
  obtain ⟨hdims, hh10, hh43, hlink, hranges, hsteps, hdesc, hpre⟩ := hinv
  have hxW : x < CHUNK_WIDTH := by unfold CHUNK_WIDTH; omega
  -- the names of the pieces of the column step
  have hh2 : (colStep s rough dens x w h i).2.1
      = max 10 (min ((CHUNK_HEIGHT : ℤ) - 5)
          (if s i < rough then h + (if s (i + 1) > 1/2 then 1 else -1) else h)) := rfl
  obtain ⟨h2e, hh2e⟩ : ∃ v, (colStep s rough dens x w h i).2.1 = v := ⟨_, rfl⟩
  obtain ⟨i1e, hi1e⟩ : ∃ v, (if s i < rough then i + 2 else i + 1) = v := ⟨_, rfl⟩
  have hfr : (colStep s rough dens x w h i).1
      = (treeStep s dens x h2e
          (fillLoop s x h2e.toNat (CHUNK_HEIGHT - h2e.toNat) h2e.toNat w i1e).1
          (fillLoop s x h2e.toNat (CHUNK_HEIGHT - h2e.toNat) h2e.toNat w i1e).2).1 := by
    rw [← hh2e, ← hi1e]
    rfl
  obtain ⟨fr, hfrw⟩ : ∃ v, (fillLoop s x h2e.toNat (CHUNK_HEIGHT - h2e.toNat)
      h2e.toNat w i1e) = v := ⟨_, rfl⟩
  rw [hfrw] at hfr
  -- clamp facts
  have hclamp : 10 ≤ h2e ∧ h2e ≤ 43 ∧ (h2e - h).natAbs ≤ 1 := by
    rw [← hh2e, hh2]
    have hC : (CHUNK_HEIGHT : ℤ) - 5 = 43 := by unfold CHUNK_HEIGHT; norm_num
    rw [hC]
    by_cases hr : s i < rough
    · rw [if_pos hr]
      by_cases hd : s (i + 1) > 1/2
      · rw [if_pos hd]; exact clamp_step h 1 hh10 hh43 (by decide)
      · rw [if_neg hd]; exact clamp_step h (-1) hh10 hh43 (by decide)
    · rw [if_neg hr]
      have := clamp_step h 0 hh10 hh43 (by decide)
      simpa using this
  obtain ⟨h10', h43', habs⟩ := hclamp
  -- fill facts
  have hdims_fr : dimsOk fr.1 := by
    rw [← hfrw]
    exact fillLoop_dims _ _ _ _ _ _ _ hdims
  have hfill_in : ∀ y : ℤ, h2e ≤ y → y < 48 →
      ∃ v, getCell fr.1 y (x : ℤ) = some v ∧ fillVal h2e.toNat y.toNat v := by
    intro y hy1 hy2
    obtain ⟨v, hv, hfv⟩ := fillLoop_get_in s x h2e.toNat hxW
      (CHUNK_HEIGHT - h2e.toNat) h2e.toNat w i1e hdims
      (by unfold CHUNK_HEIGHT; omega) y.toNat (by omega) (by unfold CHUNK_HEIGHT; omega)
    rw [hfrw] at hv
    rw [show ((y.toNat : ℕ) : ℤ) = y by omega] at hv
    exact ⟨v, hv, hfv⟩
  have hfill_other : ∀ cy cx : ℤ, (cx ≠ (x : ℤ) ∨ cy < h2e ∨ 48 ≤ cy) →
      getCell fr.1 cy cx = getCell w cy cx := by
    intro cy cx hc
    rw [← hfrw]
    apply fillLoop_get_other
    unfold CHUNK_HEIGHT
    omega
  -- tree characterization
  have h48 : h2e < CHUNK_HEIGHT := by unfold CHUNK_HEIGHT; omega
  have htree : ∀ cy cx : ℤ,
      getCell (treeStep s dens x h2e fr.1 fr.2).1 cy cx = getCell fr.1 cy cx ∨
        (0 ≤ cy ∧ cy ≤ h2e - 1 ∧ (x : ℤ) - 1 ≤ cx ∧ cx ≤ (x : ℤ) + 1 ∧
          ((cx = (x : ℤ) ∧ getCell (treeStep s dens x h2e fr.1 fr.2).1 cy cx = some WOOD) ∨
           (getCell fr.1 cy cx = some AIR ∧ cy ≤ h2e - 3 ∧
             getCell (treeStep s dens x h2e fr.1 fr.2).1 cy cx = some LEAVES))) :=
    fun cy cx => treeStep_get s dens x h2e fr.1 fr.2 hdims_fr hxW h48 hsgood cy cx
  have hdims_tr : dimsOk (treeStep s dens x h2e fr.1 fr.2).1 :=
    treeStep_dims _ _ _ _ _ _ hdims_fr
  rw [hfr, hh2e]
  -- now prove the eight components of the new invariant
  refine ⟨hdims_tr, h10', h43', ?_, ?_, ?_, ?_, ?_⟩
  · intro _
    simp
  · intro c hc
    beta_reduce
    by_cases hcx : c = x
    · subst hcx; simp [h10', h43']
    · rw [if_neg hcx]
      exact hranges c (by omega)
  · intro c hc
    beta_reduce
    by_cases hcx : c + 1 = x
    · have hc0 : c ≠ x := by omega
      rw [hcx, if_pos rfl, if_neg hc0]
      have : hs c = h := by
        have := hlink (by omega)
        rw [show x - 1 = c by omega] at this
        exact this
      rw [this]
      exact habs
    · have hc1 : c + 1 ≠ x := hcx
      have hc0 : c ≠ x := by omega
      rw [if_neg hc1, if_neg hc0]
      exact hsteps c (by omega)
  · -- column descriptions
    intro c hc
    beta_reduce
    by_cases hcx : c = x
    · -- the newly filled column
      subst hcx
      rw [if_pos rfl]
      refine ⟨?_, ?_, ?_, ?_, ?_⟩
      · -- bedrock
        rcases htree 47 c with he | he
        · obtain ⟨v, hv, hfv⟩ := hfill_in 47 (by omega) (by omega)
          unfold fillVal at hfv
          rw [if_pos (by unfold CHUNK_HEIGHT; omega)] at hfv
          rw [he, hv, hfv]
        · omega
      · -- grass at the surface
        rcases htree h2e c with he | he
        · obtain ⟨v, hv, hfv⟩ := hfill_in h2e (le_refl _) (by omega)
          unfold fillVal at hfv
          rw [if_neg (by unfold CHUNK_HEIGHT; omega), if_pos rfl] at hfv
          rw [he, hv, hfv]
        · omega
      · -- dirt
        intro y hy1 hy2 hy3
        rcases htree y c with he | he
        · obtain ⟨v, hv, hfv⟩ := hfill_in y (by omega) (by omega)
          unfold fillVal at hfv
          rw [if_neg (by unfold CHUNK_HEIGHT; omega), if_neg (by omega),
            if_neg (by omega)] at hfv
          rw [he, hv, hfv]
        · omega
      · -- stone / ore
        intro y hy1 hy2
        rcases htree y c with he | he
        · obtain ⟨v, hv, hfv⟩ := hfill_in y (by omega) (by omega)
          unfold fillVal at hfv
          rw [if_neg (by unfold CHUNK_HEIGHT; omega), if_neg (by omega)] at hfv
          rw [if_pos (by omega)] at hfv
          exact ⟨v, by rw [he, hv], hfv⟩
        · omega
      · -- above the surface
        intro y hy0 hy1
        rcases htree y c with he | he
        · rw [he, hfill_other y c (by omega)]
          obtain ⟨v, hv, hp⟩ := hpre c (le_refl _) hx y hy0 (by omega)
          exact ⟨v, hv, preOk_aboveOk hp⟩
        · rcases he.2.2.2.2 with hwv | hwv
          · exact ⟨WOOD, hwv.2, Or.inr (Or.inl rfl)⟩
          · exact ⟨LEAVES, hwv.2.2, Or.inr (Or.inr rfl)⟩
    · -- a previously processed column
      rw [if_neg hcx]
      have hclt : c < x := by omega
      obtain ⟨hb, hg, hdirt, hst, hab⟩ := hdesc c hclt
      have hcne : (c : ℤ) ≠ (x : ℤ) := by omega
      have hkeep : ∀ cy : ℤ, getCell w cy c ≠ some AIR →
          getCell (treeStep s dens x h2e fr.1 fr.2).1 cy c = getCell w cy c := by
        intro cy hne
        have hfix : getCell fr.1 cy (c : ℤ) = getCell w cy c :=
          hfill_other cy c (Or.inl hcne)
        rcases htree cy c with he | he
        · rw [he, hfix]
        · rcases he.2.2.2.2 with hwv | hwv
          · exact absurd hwv.1 hcne
          · rw [hfix] at hwv
            exact absurd hwv.1 hne
      refine ⟨?_, ?_, ?_, ?_, ?_⟩
      · rw [hkeep 47 (by rw [hb]; simp [BEDROCK, AIR])]
        exact hb
      · rw [hkeep (hs c) (by rw [hg]; simp [GRASS, AIR])]
        exact hg
      · intro y hy1 hy2 hy3
        rw [hkeep y (by rw [hdirt y hy1 hy2 hy3]; simp [DIRT, AIR])]
        exact hdirt y hy1 hy2 hy3
      · intro y hy1 hy2
        obtain ⟨v, hv, hso⟩ := hst y hy1 hy2
        refine ⟨v, ?_, hso⟩
        rw [hkeep y (by rw [hv]; simpa using stoneOre_ne_air hso)]
        exact hv
      · intro y hy0 hy1
        obtain ⟨v, hv, hao⟩ := hab y hy0 hy1
        have hfix : getCell fr.1 y (c : ℤ) = getCell w y c :=
          hfill_other y c (Or.inl hcne)
        rcases htree y c with he | he
        · exact ⟨v, by rw [he, hfix, hv], hao⟩
        · rcases he.2.2.2.2 with hwv | hwv
          · exact absurd hwv.1 hcne
          · exact ⟨LEAVES, hwv.2.2, Or.inr (Or.inr rfl)⟩
  · -- unprocessed columns keep only AIR or spilt leaves
    intro c hc1 hc2 y hy0 hy1
    have hcne : (c : ℤ) ≠ (x : ℤ) := by omega
    obtain ⟨v, hv, hp⟩ := hpre c (by omega) hc2 y hy0 hy1
    have hfix : getCell fr.1 y (c : ℤ) = getCell w y c :=
      hfill_other y c (Or.inl hcne)
    rcases htree y c with he | he
    · exact ⟨v, by rw [he, hfix, hv], hp⟩
    · rcases he.2.2.2.2 with hwv | hwv
      · exact absurd hwv.1 hcne
      · exact ⟨LEAVES, hwv.2.2, Or.inr rfl⟩

/-! ### The generation loop invariant and the column theorem -/

theorem genLoop_inv (s : ℕ → ℚ) (rough dens : ℚ) (hsgood : GoodS s) :
    ∀ (n x : ℕ) (w : World) (h : ℤ) (i : ℕ) (hs : ℕ → ℤ), x + n = 64 →
      genInv w x h hs →
      ∃ hs' h', genInv (genLoop s rough dens n x w h i).1 64 h' hs' := by
  intro n
  induction n with
  | zero =>
    intro x w h i hs hx hinv
    have hx64 : x = 64 := by omega
    subst hx64
    exact ⟨hs, h, hinv⟩
  | succ n ih =>
    intro x w h i hs hx hinv
    have hstep := colStep_inv s rough dens hsgood x w h i hs (by omega) hinv
    exact ih (x + 1) _ _ _ _ (by omega) hstep

theorem genInv_init : genInv blankWorld 0 24 (fun _ => 24) := by
  refine ⟨dimsOk_blankWorld, by norm_num, by norm_num,
    fun hh => absurd hh (by norm_num),
    fun c hc => absurd hc (by omega),
    fun c hc => absurd hc (by omega),
    fun c hc => absurd hc (by omega), ?_⟩
  intro c _ hc2 y hy0 hy1
  exact ⟨AIR, blankWorld_get hy0 hy1 (by omega) (by omega), Or.inl rfl⟩

theorem generateWorld_inv (bio : BiomeConfig) (s : ℕ → ℚ) (hsgood : GoodS s) :
    ∃ hs h, genInv (generateWorld bio s) 64 h hs := by
  have hinit : genInv blankWorld 0 (((CHUNK_HEIGHT / 2 : ℕ) : ℤ)) (fun _ => 24) := by
    have : (((CHUNK_HEIGHT / 2 : ℕ) : ℕ) : ℤ) = 24 := by unfold CHUNK_HEIGHT; norm_num
    rw [this]
    exact genInv_init
  obtain ⟨hs, h, hinv⟩ := genLoop_inv s bio.terrainRoughness bio.treeDensity hsgood
    CHUNK_WIDTH 0 blankWorld (((CHUNK_HEIGHT / 2 : ℕ) : ℤ)) 0 (fun _ => 24)
    (by unfold CHUNK_WIDTH; omega) hinit
  exact ⟨hs, h, hinv⟩

/-- C3 (amended): for every biome configuration and every stream of draws in
[0, 1), world generation produces a 48x64 grid by a per-column random walk of
the surface height (steps of at most one tile, clamped to [10, 43]) followed
by tree placement; each column holds GRASS at the surface row, DIRT for the
next 5 rows where those lie above the bottom row, STONE or ORE below that,
BEDROCK in the bottom row, and above the surface only AIR, tree WOOD, or
LEAVES. -/
theorem generateWorld_columns (bio : BiomeConfig) (s : ℕ → ℚ) (hsgood : GoodS s) :
    dimsOk (generateWorld bio s) ∧
    ∃ hs : ℕ → ℤ,
      (∀ c, c < 64 → 10 ≤ hs c ∧ hs c ≤ 43) ∧
      (∀ c, c + 1 < 64 → (hs (c + 1) - hs c).natAbs ≤ 1) ∧
      (∀ c, c < 64 → colDesc (generateWorld bio s) c (hs c)) := by
  obtain ⟨hs, h, hdims, _, _, _, hranges, hsteps, hdesc, _⟩ :=
    generateWorld_inv bio s hsgood
  exact ⟨hdims, hs, fun c hc => hranges c hc, fun c hc => hsteps c hc,
    fun c hc => hdesc c hc⟩

/-- The all-zero draw stream: every draw is 0. -/
def zeroStream : ℕ → ℚ := fun _ => 0

/-- Witness for the C3 theorem at the default biome and the zero stream. -/
theorem generateWorld_columns_witness :
    GoodS zeroStream ∧
      (dimsOk (generateWorld DEFAULT_BIOME zeroStream) ∧
        ∃ hs : ℕ → ℤ,
          (∀ c, c < 64 → 10 ≤ hs c ∧ hs c ≤ 43) ∧
          (∀ c, c + 1 < 64 → (hs (c + 1) - hs c).natAbs ≤ 1) ∧
          (∀ c, c < 64 → colDesc (generateWorld DEFAULT_BIOME zeroStream) c (hs c))) :=
  ⟨fun n => ⟨le_refl 0, by norm_num [zeroStream]⟩,
    generateWorld_columns DEFAULT_BIOME zeroStream
      (fun n => ⟨le_refl 0, by norm_num [zeroStream]⟩)⟩

/-! ### Splitting the generation loop and preserving non-AIR cells -/

theorem genLoop_add (s : ℕ → ℚ) (rough dens : ℚ) (m : ℕ) :
    ∀ (n x : ℕ) (w : World) (h : ℤ) (i : ℕ),
      genLoop s rough dens (m + n) x w h i
        = genLoop s rough dens n (x + m) (genLoop s rough dens m x w h i).1
            (genLoop s rough dens m x w h i).2.1 (genLoop s rough dens m x w h i).2.2 := by
  induction m with
  | zero =>
    intro n x w h i
    rw [Nat.zero_add, Nat.add_zero]
    rfl
  | succ m ih =>
    intro n x w h i
    rw [show m + 1 + n = (m + n) + 1 from by omega]
    simp only [genLoop]
    rw [ih n (x + 1)]
    rw [show x + 1 + m = x + (m + 1) from by omega]

theorem leafAt_preserves_nonair (w : World) (ly lx cy cx : ℤ) (v : ℕ)
    (hv : getCell w cy cx = some v) (hne : v ≠ AIR) :
    getCell (leafAt w ly lx) cy cx = some v := by
  unfold leafAt
  split_ifs with hg hair
  · by_cases hcell : cy = ly ∧ cx = lx
    · exfalso
      obtain ⟨rfl, rfl⟩ := hcell
      rw [hv] at hair
      exact hne (Option.some_injective _ hair)
    · rw [getCell_setCell_ne _ _ _ _ _ _ ?_]
      · exact hv
      · rcases not_and_or.mp hcell with hne' | hne'
        · left; omega
        · right; omega
  · exact hv
  · exact hv

theorem leavesFold_preserves_nonair (L : List (ℤ × ℤ)) :
    ∀ (w : World) (cy cx : ℤ) (v : ℕ), getCell w cy cx = some v → v ≠ AIR →
      getCell (L.foldl (fun acc pr => leafAt acc pr.1 pr.2) w) cy cx = some v := by
  induction L with
  | nil => intro w cy cx v hv _; exact hv
  | cons p t ih =>
    intro w cy cx v hv hne
    exact ih _ _ _ _ (leafAt_preserves_nonair w p.1 p.2 cy cx v hv hne) hne

theorem trunkLoop_get_other (x : ℕ) (h : ℤ) :
    ∀ (cnt i0 : ℕ) (w : World) (cy cx : ℤ), cx ≠ (x : ℤ) →
      getCell (trunkLoop x h cnt i0 w) cy cx = getCell w cy cx := by
  intro cnt
  induction cnt with
  | zero => intro i0 w cy cx _; rfl
  | succ n ih =>
    intro i0 w cy cx hcx
    simp only [trunkLoop]
    split_ifs
    · rw [ih _ _ _ _ hcx, getCell_setCell_ne _ _ _ _ _ _ (Or.inr hcx)]
    · rw [ih _ _ _ _ hcx]

theorem treeStep_preserves_nonair (s : ℕ → ℚ) (dens : ℚ) (x : ℕ) (h : ℤ)
    (w : World) (i : ℕ) (cy cx : ℤ) (v : ℕ)
    (hcx : cx ≠ (x : ℤ)) (hv : getCell w cy cx = some v) (hne : v ≠ AIR) :
    getCell (treeStep s dens x h w i).1 cy cx = some v := by
  unfold treeStep
  split_ifs
  · simp only [leavesStep]
    apply leavesFold_preserves_nonair _ _ _ _ _ _ hne
    rw [trunkLoop_get_other _ _ _ _ _ _ _ hcx]
    exact hv
  · exact hv
  · exact hv

theorem colStep_preserves_nonair (s : ℕ → ℚ) (rough dens : ℚ) (x : ℕ) (w : World)
    (h : ℤ) (i : ℕ) (cy cx : ℤ) (v : ℕ)
    (hcx : cx ≠ (x : ℤ)) (hv : getCell w cy cx = some v) (hne : v ≠ AIR) :
    getCell (colStep s rough dens x w h i).1 cy cx = some v := by
  apply treeStep_preserves_nonair _ _ _ _ _ _ _ _ _ hcx _ hne
  rw [fillLoop_get_other _ _ _ _ _ _ _ _ _ (Or.inl hcx)]
  exact hv

theorem genLoop_preserves_nonair (s : ℕ → ℚ) (rough dens : ℚ) :
    ∀ (n x : ℕ) (w : World) (h : ℤ) (i : ℕ) (cy cx : ℤ) (v : ℕ),
      cx < (x : ℤ) → getCell w cy cx = some v → v ≠ AIR →
      getCell (genLoop s rough dens n x w h i).1 cy cx = some v := by
  intro n
  induction n with
  | zero => intro x w h i cy cx v _ hv _; exact hv
  | succ n ih =>
    intro x w h i cy cx v hcx hv hne
    simp only [genLoop]
    exact ih (x + 1) _ _ _ cy cx v (by omega)
      (colStep_preserves_nonair s rough dens x w h i cy cx v (by omega) hv hne) hne


theorem colStep_dims (s : ℕ → ℚ) (rough dens : ℚ) (x : ℕ) (w : World) (h : ℤ)
    (i : ℕ) (hw : dimsOk w) : dimsOk (colStep s rough dens x w h i).1 :=
  treeStep_dims _ _ _ _ _ _ (fillLoop_dims _ _ _ _ _ _ _ hw)

theorem genLoop_dims (s : ℕ → ℚ) (rough dens : ℚ) :
    ∀ (n x : ℕ) (w : World) (h : ℤ) (i : ℕ), dimsOk w →
      dimsOk (genLoop s rough dens n x w h i).1 := by
  intro n
  induction n with
  | zero => intro x w h i hw; exact hw
  | succ n ih =>
    intro x w h i hw
    simp only [genLoop]
    exact ih _ _ _ _ (colStep_dims s rough dens x w h i hw)

theorem trunkLoop_get_above (x : ℕ) (h : ℤ) :
    ∀ (cnt i0 : ℕ) (w : World) (cy cx : ℤ), h - i0 < cy →
      getCell (trunkLoop x h cnt i0 w) cy cx = getCell w cy cx := by
  intro cnt
  induction cnt with
  | zero => intro i0 w cy cx _; rfl
  | succ n ih =>
    intro i0 w cy cx hcy
    simp only [trunkLoop]
    split_ifs with hnn
    · rw [ih _ _ _ _ (by omega), getCell_setCell_ne _ _ _ _ _ _ (by omega)]
    · rw [ih _ _ _ _ (by omega)]

theorem trunkLoop_get_wood (x : ℕ) (h : ℤ) (hx : x < CHUNK_WIDTH)
    (hh : h < CHUNK_HEIGHT) :
    ∀ (cnt i0 : ℕ) (w : World), dimsOk w → ∀ cy : ℤ,
      0 ≤ cy → h - i0 - cnt < cy → cy ≤ h - i0 →
      getCell (trunkLoop x h cnt i0 w) cy x = some WOOD := by
  intro cnt
  induction cnt with
  | zero => intro i0 w _ cy _ h1 h2; omega
  | succ n ih =>
    intro i0 w hw cy hcy0 hlo hhi
    simp only [trunkLoop]
    rcases eq_or_lt_of_le hhi with heq | hlt
    · subst heq
      have hnn : (0 : ℤ) ≤ h - (i0 : ℤ) := by omega
      rw [if_pos hnn, trunkLoop_get_above x h n (i0 + 1) _ _ _ (by omega)]
      have hcast : (((h - (i0 : ℤ)).toNat : ℕ) : ℤ) = h - (i0 : ℤ) := by omega
      rw [← hcast]
      exact getCell_setCell_eq hw WOOD (by omega) hx
    · split_ifs with hnn
      · exact ih (i0 + 1) _ (dimsOk_setCell hw _ _ _) cy hcy0 (by omega) (by omega)
      · exact ih (i0 + 1) _ hw cy hcy0 (by omega) (by omega)

theorem colStep_zero_height (x : ℕ) (w : World) (h : ℤ) (i : ℕ) :
    (colStep zeroStream (1/2) (1/10) x w h i).2.1 = max 10 (min 43 (h - 1)) := by
  simp only [colStep, zeroStream, CHUNK_HEIGHT]
  norm_num
  omega

theorem genLoop_zero_height :
    ∀ (n x : ℕ) (w : World) (h : ℤ) (i : ℕ), 10 + (n : ℤ) ≤ h → h ≤ 43 →
      (genLoop zeroStream (1/2) (1/10) n x w h i).2.1 = h - n := by
  intro n
  induction n with
  | zero => intro x w h i _ _; simp [genLoop]
  | succ n ih =>
    intro x w h i hlo hhi
    simp only [genLoop]
    rw [colStep_zero_height]
    have hmm : max 10 (min 43 (h - 1)) = h - 1 := by omega
    rw [hmm, ih _ _ _ _ (by omega) (by omega)]
    push_cast
    ring

theorem colStep_six (w : World) (i : ℕ) (hw : dimsOk w) :
    getCell (colStep zeroStream (1/2) (1/10) 6 w 18 i).1 17 6 = some GRASS ∧
    getCell (colStep zeroStream (1/2) (1/10) 6 w 18 i).1 16 6 = some WOOD := by
  have hcol : (colStep zeroStream (1/2) (1/10) 6 w 18 i).1
      = (treeStep zeroStream (1/10) 6 17
          (fillLoop zeroStream 6 17 31 17 w (i + 2)).1
          (fillLoop zeroStream 6 17 31 17 w (i + 2)).2).1 := by
    simp only [colStep, zeroStream, CHUNK_HEIGHT]
    norm_num
    rfl
  have hwF : dimsOk (fillLoop zeroStream 6 17 31 17 w (i + 2)).1 :=
    fillLoop_dims _ _ _ _ _ _ _ hw
  have hg17 : getCell (fillLoop zeroStream 6 17 31 17 w (i + 2)).1 17 6
      = some GRASS := by
    obtain ⟨v, hv, hval⟩ := fillLoop_get_in zeroStream 6 17 (by decide) 31 17 w
      (i + 2) hw (by norm_num) 17 (le_refl 17) (by norm_num)
    have hvG : v = GRASS := by
      unfold fillVal at hval
      norm_num [CHUNK_HEIGHT] at hval
      exact hval
    subst hvG
    exact_mod_cast hv
  have htree : treeStep zeroStream (1/10) 6 17
      (fillLoop zeroStream 6 17 31 17 w (i + 2)).1
      (fillLoop zeroStream 6 17 31 17 w (i + 2)).2
      = (leavesStep
          (trunkLoop 6 17 3 1 (fillLoop zeroStream 6 17 31 17 w (i + 2)).1) 6 17 3,
         (fillLoop zeroStream 6 17 31 17 w (i + 2)).2 + 2) := by
    unfold treeStep
    rw [if_pos ⟨by norm_num, by norm_num [CHUNK_WIDTH], by exact_mod_cast hg17⟩,
      if_pos (by norm_num [zeroStream] :
        zeroStream ((fillLoop zeroStream 6 17 31 17 w (i + 2)).2) < 1/10)]
    norm_num [zeroStream]
    rfl
  have hwood : getCell
      (trunkLoop 6 17 3 1 (fillLoop zeroStream 6 17 31 17 w (i + 2)).1) 16 6
      = some WOOD := by
    have hg := trunkLoop_get_wood 6 17 (by decide) (by decide) 3 1 _ hwF 16
      (by norm_num) (by norm_num) (by norm_num)
    exact_mod_cast hg
  have hgrassT : getCell
      (trunkLoop 6 17 3 1 (fillLoop zeroStream 6 17 31 17 w (i + 2)).1) 17 6
      = some GRASS := by
    rw [trunkLoop_get_above 6 17 3 1 _ 17 6 (by norm_num)]
    exact hg17
  constructor
  · rw [hcol, htree]
    simp only [leavesStep]
    exact leavesFold_preserves_nonair _ _ _ _ _ hgrassT (by decide)
  · rw [hcol, htree]
    simp only [leavesStep]
    exact leavesFold_preserves_nonair _ _ _ _ _ hwood (by decide)

/-- Unfolding one step of the generation loop. -/
theorem genLoop_one (s : ℕ → ℚ) (rough dens : ℚ) (x : ℕ) (w : World) (h : ℤ)
    (i : ℕ) : genLoop s rough dens 1 x w h i = colStep s rough dens x w h i := rfl

/-- `generateWorld` unfolded to the column loop on the blank grid. -/
theorem generateWorld_eq (bio : BiomeConfig) (s : ℕ → ℚ) :
    generateWorld bio s
      = (genLoop s bio.terrainRoughness bio.treeDensity 64 0 blankWorld 24 0).1 := rfl

/-- The claim's literal per-column description: GRASS at the surface row,
DIRT for the next 5 rows (unconditionally), STONE or ORE below that, BEDROCK
in the bottom row, and (only) AIR above the surface. -/
def claimedColDesc (w : World) (x : ℕ) (h : ℤ) : Prop :=
  getCell w h x = some GRASS ∧
  (∀ y : ℤ, h < y → y ≤ h + 5 → getCell w y x = some DIRT) ∧
  (∀ y : ℤ, h + 5 < y → y < 47 → ∃ v, getCell w y x = some v ∧ stoneOre v) ∧
  getCell w 47 x = some BEDROCK ∧
  (∀ y : ℤ, 0 ≤ y → y < h → getCell w y x = some AIR)

/-- C3 counterexample: on the default biome with the all-zero draw stream
(step draw always below the roughness, tree draw always below the density),
the generated world satisfies the claim's per-column description for no
assignment of surface heights: a tree grows at column 6, whose surface row
17 carries GRASS but whose row 16 carries WOOD, not AIR. -/
theorem generateWorld_claimed_counterexample :
    ¬ ∃ hs : ℕ → ℤ, ∀ c, c < 64 →
        claimedColDesc (generateWorld DEFAULT_BIOME zeroStream) c (hs c) := by
  have hB21 : (genLoop zeroStream (1/2) (1/10) 6 0 blankWorld 24 0).2.1 = 18 := by
    rw [genLoop_zero_height 6 0 blankWorld 24 0 (by norm_num) (by norm_num)]
    norm_num
  have hBdims : dimsOk (genLoop zeroStream (1/2) (1/10) 6 0 blankWorld 24 0).1 :=
    genLoop_dims _ _ _ _ _ _ _ _ dimsOk_blankWorld
  have hsplit : generateWorld DEFAULT_BIOME zeroStream
      = (genLoop zeroStream (1/2) (1/10) 57 7
          (colStep zeroStream (1/2) (1/10) 6
            (genLoop zeroStream (1/2) (1/10) 6 0 blankWorld 24 0).1 18
            (genLoop zeroStream (1/2) (1/10) 6 0 blankWorld 24 0).2.2).1
          (colStep zeroStream (1/2) (1/10) 6
            (genLoop zeroStream (1/2) (1/10) 6 0 blankWorld 24 0).1 18
            (genLoop zeroStream (1/2) (1/10) 6 0 blankWorld 24 0).2.2).2.1
          (colStep zeroStream (1/2) (1/10) 6
            (genLoop zeroStream (1/2) (1/10) 6 0 blankWorld 24 0).1 18
            (genLoop zeroStream (1/2) (1/10) 6 0 blankWorld 24 0).2.2).2.2).1 := by
    rw [generateWorld_eq,
      show DEFAULT_BIOME.terrainRoughness = 1/2 from rfl,
      show DEFAULT_BIOME.treeDensity = 1/10 from rfl,
      show (64 : ℕ) = 6 + 58 from rfl, genLoop_add, hB21,
      show (58 : ℕ) = 1 + 57 from rfl, genLoop_add, genLoop_one]
  obtain ⟨hG, hW⟩ := colStep_six
    (genLoop zeroStream (1/2) (1/10) 6 0 blankWorld 24 0).1
    (genLoop zeroStream (1/2) (1/10) 6 0 blankWorld 24 0).2.2 hBdims
  have hc17 : getCell (generateWorld DEFAULT_BIOME zeroStream) 17 6
      = some GRASS := by
    rw [hsplit]
    exact genLoop_preserves_nonair zeroStream (1/2) (1/10) 57 7 _ _ _ 17 6 GRASS
      (by norm_num) hG (by decide)
  have hc16 : getCell (generateWorld DEFAULT_BIOME zeroStream) 16 6
      = some WOOD := by
    rw [hsplit]
    exact genLoop_preserves_nonair zeroStream (1/2) (1/10) 57 7 _ _ _ 16 6 WOOD
      (by norm_num) hW (by decide)
  rintro ⟨hs, hall⟩
  obtain ⟨hgrass, hdirt, hstone, hbed, hair⟩ := hall 6 (by norm_num)
  simp only [Nat.cast_ofNat] at hgrass hdirt hstone hbed hair
  by_cases h6 : hs 6 ≤ 16
  · by_cases hz : (17 : ℤ) ≤ hs 6 + 5
    · have hd := hdirt 17 (by omega) hz
      rw [hc17] at hd
      exact absurd (Option.some_injective _ hd) (by decide)
    · obtain ⟨v, hv, hso⟩ := hstone 17 (by omega) (by norm_num)
      rw [hc17] at hv
      obtain rfl := Option.some_injective _ hv
      rcases hso with hcase | hcase <;> exact absurd hcase.symm (by decide)
  · have ha := hair 16 (by norm_num) (by omega)
    rw [hc16] at ha
    exact absurd (Option.some_injective _ ha) (by decide)
/-! ### C6: fixed dimensions and valid tile IDs -/

/-- Every stored tile ID is one of the 8 block types `AIR .. ORE`. -/
def cellsOk (w : World) : Prop := ∀ row ∈ w, ∀ v ∈ row, v < 8

instance : DecidablePred cellsOk := fun w => by
  unfold cellsOk; infer_instance

theorem cellsOk_lt {w : World} (hc : cellsOk w) {y x : ℤ} {v : ℕ}
    (h : getCell w y x = some v) : v < 8 := by
  unfold getCell at h
  by_cases h0 : 0 ≤ y ∧ 0 ≤ x
  · rw [if_pos h0] at h
    rcases hrow : w[y.toNat]? with _ | row
    · rw [hrow] at h; exact absurd h (by simp)
    · rw [hrow] at h
      simp only [Option.bind_eq_bind, Option.some_bind] at h
      exact hc row (List.getElem?_mem hrow) v (List.getElem?_mem h)
  · rw [if_neg h0] at h
    exact absurd h (by simp)

theorem cellsOk_setCell {w : World} (hc : cellsOk w) {y x v : ℕ} (hv : v < 8) :
    cellsOk (setCell w y x v) := by
  intro row hrow
  unfold setCell at hrow
  by_cases hy : y < w.length
  · rcases List.mem_or_eq_of_mem_set hrow with h' | h'
    · exact hc _ h'
    · subst h'
      intro u hu
      rcases List.mem_or_eq_of_mem_set hu with h'' | h''
      · refine hc w[y] (List.getElem_mem hy) u ?_
        rw [List.getD_eq_getElem?_getD, List.getElem?_eq_getElem hy] at h''
        exact h''
      · subst h''; exact hv
  · rw [List.set_eq_of_length_le (by omega)] at hrow
    exact hc _ hrow

theorem generateWorld_cellsOk (bio : BiomeConfig) (s : ℕ → ℚ) (hsgood : GoodS s) :
    cellsOk (generateWorld bio s) := by
  obtain ⟨hs, h, hdims, _, _, _, hranges, _, hdesc, _⟩ := generateWorld_inv bio s hsgood
  intro row hrow v hv
  obtain ⟨iy, hiy, hrow'⟩ := List.getElem_of_mem hrow
  obtain ⟨ix, hix, hv'⟩ := List.getElem_of_mem hv
  have hget : getCell (generateWorld bio s) (iy : ℤ) (ix : ℤ) = some v := by
    unfold getCell
    rw [if_pos ⟨by omega, by omega⟩]
    simp only [Int.toNat_natCast]
    rw [List.getElem?_eq_getElem hiy]
    simp only [Option.bind_eq_bind, Option.some_bind]
    rw [hrow', List.getElem?_eq_getElem hix, hv']
  have hiy48 : iy < 48 := by
    have := hdims.1; unfold CHUNK_HEIGHT at this; omega
  have hix64 : ix < 64 := by
    have := hdims.2 row hrow
    unfold CHUNK_WIDTH at this
    omega
  obtain ⟨hb, hg, hdirt, hst, hab⟩ := hdesc ix (by omega)
  obtain ⟨h10, h43⟩ := hranges ix (by omega)
  rcases lt_trichotomy ((iy : ℤ)) (hs ix) with hz | hz | hz
  · obtain ⟨u, hu, hao⟩ := hab iy (by omega) hz
    rw [hget] at hu
    obtain rfl := Option.some_injective _ hu
    rcases hao with h' | h' | h' <;> (subst h'; decide)
  · rw [← hz] at hg
    rw [hget] at hg
    obtain rfl := Option.some_injective _ hg
    decide
  · by_cases h47 : (iy : ℤ) = 47
    · rw [h47] at hget
      rw [hget] at hb
      obtain rfl := Option.some_injective _ hb
      decide
    · by_cases hdz : (iy : ℤ) ≤ hs ix + 5
      · have hd := hdirt iy hz hdz (by omega)
        rw [hget] at hd
        obtain rfl := Option.some_injective _ hd
        decide
      · obtain ⟨u, hu, hso⟩ := hst iy (by omega) (by omega)
        rw [hget] at hu
        obtain rfl := Option.some_injective _ hu
        rcases hso with h' | h' <;> (subst h'; decide)

theorem mem_cycleTypes_lt {b : ℕ} (h : b ∈ cycleTypes) : b < 8 := by
  simp only [cycleTypes, DIRT, STONE, WOOD, GRASS, LEAVES, List.mem_cons,
    List.not_mem_nil, or_false] at h
  omega

theorem cycleNext_mem (b : ℕ) : cycleNext b ∈ cycleTypes := by
  unfold cycleNext
  have h5 : ((jsIndexOfAux cycleTypes b 0 + 1) % 5).toNat < 5 := by
    have h1 : 0 ≤ (jsIndexOfAux cycleTypes b 0 + 1) % 5 :=
      Int.emod_nonneg _ (by norm_num)
    have h2 : (jsIndexOfAux cycleTypes b 0 + 1) % 5 < 5 :=
      Int.emod_lt_of_pos _ (by norm_num)
    omega
  have hlen : ((jsIndexOfAux cycleTypes b 0 + 1) % 5).toNat < cycleTypes.length := by
    rw [show cycleTypes.length = 5 from rfl]
    exact h5
  rw [List.getD_eq_getElem?_getD, List.getElem?_eq_getElem hlen]
  exact List.getElem_mem hlen

theorem actionsStep_player_cases (w : World) (p : PlayerState) (inp : InputState)
    (last now : ℚ) :
    (actionsStep w p inp last now).2.1 = p ∨
      (actionsStep w p inp last now).2.1
        = { p with selectedBlock := cycleNext p.selectedBlock } := by
  simp only [actionsStep]
  split_ifs <;> simp

/-- C6: after generation the world is exactly 48 rows by 64 columns of tile
IDs drawn from the 8 block types, and the per-frame update (physics, mine,
place, render) preserves the dimensions, writes only tile IDs from that set,
and keeps the selected block inside the cycle list. -/
theorem world_fixed_size_and_valid (bio : BiomeConfig) (s : ℕ → ℚ) (g : ℚ)
    (inp : InputState) (now : ℚ) (f : Frame) :
    (GoodS s → dimsOk (generateWorld bio s) ∧ cellsOk (generateWorld bio s)) ∧
    (dimsOk f.world → cellsOk f.world → f.player.selectedBlock ∈ cycleTypes →
      dimsOk (update g inp now f).world ∧ cellsOk (update g inp now f).world ∧
      (update g inp now f).player.selectedBlock ∈ cycleTypes) := by
  constructor
  · intro hsg
    obtain ⟨hs, h, hinv⟩ := generateWorld_inv bio s hsg
    exact ⟨hinv.1, generateWorld_cellsOk bio s hsg⟩
  · intro hdims hcells hsel
    have hupd : (update g inp now f).world
        = (actionsStep f.world (physicsStep g f.world inp f.player) inp f.last now).1 := rfl
    have hupdP : (update g inp now f).player
        = (actionsStep f.world (physicsStep g f.world inp f.player) inp f.last now).2.1 := rfl
    have hselP : (physicsStep g f.world inp f.player).selectedBlock
        = f.player.selectedBlock := rfl
    refine ⟨?_, ?_, ?_⟩
    · rcases actionsStep_world_cases f.world (physicsStep g f.world inp f.player)
        inp f.last now with heq | ⟨v, _, _, heq⟩
      · rw [hupd, heq]; exact hdims
      · rw [hupd, heq]; exact dimsOk_setCell hdims _ _ _
    · rcases actionsStep_world_cases f.world (physicsStep g f.world inp f.player)
        inp f.last now with heq | ⟨v, hval, _, heq⟩
      · rw [hupd, heq]; exact hcells
      · rw [hupd, heq]
        apply cellsOk_setCell hcells
        rcases hval with h' | h'
        · subst h'; decide
        · subst h'
          rw [hselP]
          exact mem_cycleTypes_lt hsel
    · rcases actionsStep_player_cases f.world (physicsStep g f.world inp f.player)
        inp f.last now with heq | heq
      · rw [hupdP, heq, hselP]; exact hsel
      · rw [hupdP, heq]
        exact cycleNext_mem _

section
attribute [local semireducible] Rat.add Rat.mul Rat.inv Rat.sub Rat.ofScientific

/-- Witness for the C6 theorem: the zero stream for generation and the
mining frame for the update part. -/
theorem world_fixed_size_and_valid_witness :
    (GoodS zeroStream ∧ dimsOk frameMine.world ∧ cellsOk frameMine.world ∧
      frameMine.player.selectedBlock ∈ cycleTypes) ∧
    ((dimsOk (generateWorld DEFAULT_BIOME zeroStream) ∧
        cellsOk (generateWorld DEFAULT_BIOME zeroStream)) ∧
      (dimsOk (update (1/2) inputsMine 300 frameMine).world ∧
        cellsOk (update (1/2) inputsMine 300 frameMine).world ∧
        (update (1/2) inputsMine 300 frameMine).player.selectedBlock ∈ cycleTypes)) :=
  ⟨⟨fun n => ⟨le_refl 0, by norm_num [zeroStream]⟩, by decide, by decide, by decide⟩,
    (world_fixed_size_and_valid DEFAULT_BIOME zeroStream (1/2) inputsMine 300
        frameMine).1 (fun n => ⟨le_refl 0, by norm_num [zeroStream]⟩),
    (world_fixed_size_and_valid DEFAULT_BIOME zeroStream (1/2) inputsMine 300
        frameMine).2 (by decide) (by decide) (by decide)⟩

end

/-! ### C7: bedrock is permanent -/

theorem setCell_keeps_bedrock {w : World} {i j gy gx : ℤ} {v : ℕ}
    (hb : getCell w i j = some BEDROCK)
    (hguard : getCell w gy gx ≠ some BEDROCK ∨ getCell w gy gx = some AIR)
    (hgy : 0 ≤ gy) (hgx : 0 ≤ gx) :
    getCell (setCell w gy.toNat gx.toNat v) i j = some BEDROCK := by
  by_cases hij : i = gy ∧ j = gx
  · exfalso
    obtain ⟨rfl, rfl⟩ := hij
    rcases hguard with hg | hg
    · exact hg hb
    · rw [hb] at hg
      exact absurd (Option.some_injective _ hg) (by decide)
  · rw [getCell_setCell_ne _ _ _ _ _ _ ?_]
    · exact hb
    · rcases not_and_or.mp hij with hne | hne
      · left; omega
      · right; omega

theorem actionsStep_preserves_bedrock (w : World) (p : PlayerState) (inp : InputState)
    (last now : ℚ) (i j : ℤ) (hb : getCell w i j = some BEDROCK) :
    getCell (actionsStep w p inp last now).1 i j = some BEDROCK := by
  simp only [actionsStep]
  split_ifs <;>
    first
      | exact hb
      | (apply setCell_keeps_bedrock hb (Or.inl (by assumption)) <;> omega)
      | (apply setCell_keeps_bedrock hb (Or.inr (by assumption)) <;> omega)

theorem update_preserves_bedrock (g : ℚ) (inp : InputState) (now : ℚ) (f : Frame)
    (i j : ℤ) (hb : getCell f.world i j = some BEDROCK) :
    getCell (update g inp now f).world i j = some BEDROCK :=
  actionsStep_preserves_bedrock f.world (physicsStep g f.world inp f.player)
    inp f.last now i j hb

/-- Running a list of frames: per frame an input state and a `Date.now()`
reading. -/
def runFrames (g : ℚ) (l : List (InputState × ℚ)) (f : Frame) : Frame :=
  l.foldl (fun acc pr => update g pr.1 pr.2 acc) f

theorem runFrames_preserves_bedrock (g : ℚ) (l : List (InputState × ℚ)) :
    ∀ (f : Frame) (i j : ℤ), getCell f.world i j = some BEDROCK →
      getCell (runFrames g l f).world i j = some BEDROCK := by
  induction l with
  | nil => intro f i j hb; exact hb
  | cons pr t ih =>
    intro f i j hb
    exact ih _ i j (update_preserves_bedrock g pr.1 pr.2 f i j hb)

theorem generateWorld_bottom_row (bio : BiomeConfig) (s : ℕ → ℚ) (hsgood : GoodS s) :
    ∀ j : ℤ, 0 ≤ j → j < 64 → getCell (generateWorld bio s) 47 j = some BEDROCK := by
  obtain ⟨hs, h, _, _, _, _, _, _, hdesc, _⟩ := generateWorld_inv bio s hsgood
  intro j hj0 hj1
  have hbed := (hdesc j.toNat (by omega)).1
  rw [show ((j.toNat : ℕ) : ℤ) = j from by omega] at hbed
  exact hbed

/-- C7: in every state reachable from a freshly generated world by any
sequence of frames with any inputs and wall-clock readings, every cell that
was BEDROCK remains BEDROCK (mining skips BEDROCK, placing writes only into
AIR), and in particular the entire bottom row (y = 47) is BEDROCK forever. -/
theorem bedrock_permanent (bio : BiomeConfig) (s : ℕ → ℚ) (hsgood : GoodS s)
    (g : ℚ) (l : List (InputState × ℚ)) (p0 : PlayerState) (last0 : ℚ)
    (cam0 : ℚ × ℚ) :
    (∀ i j : ℤ, getCell (generateWorld bio s) i j = some BEDROCK →
        getCell (runFrames g l ⟨generateWorld bio s, p0, last0, cam0⟩).world i j
          = some BEDROCK) ∧
    (∀ j : ℤ, 0 ≤ j → j < 64 →
        getCell (runFrames g l ⟨generateWorld bio s, p0, last0, cam0⟩).world 47 j
          = some BEDROCK) := by
  constructor
  · intro i j hb
    exact runFrames_preserves_bedrock g l _ i j hb
  · intro j h0 h1
    exact runFrames_preserves_bedrock g l _ 47 j
      (generateWorld_bottom_row bio s hsgood j h0 h1)

/-- Witness for the C7 theorem: one mining frame on the zero-stream world. -/
theorem bedrock_permanent_witness :
    GoodS zeroStream ∧
      ((∀ i j : ℤ,
          getCell (generateWorld DEFAULT_BIOME zeroStream) i j = some BEDROCK →
          getCell (runFrames (1/2) [(inputsMine, 300)]
              ⟨generateWorld DEFAULT_BIOME zeroStream, pResting, 0, (0, 0)⟩).world i j
            = some BEDROCK) ∧
       (∀ j : ℤ, 0 ≤ j → j < 64 →
          getCell (runFrames (1/2) [(inputsMine, 300)]
              ⟨generateWorld DEFAULT_BIOME zeroStream, pResting, 0, (0, 0)⟩).world 47 j
            = some BEDROCK)) :=
  ⟨fun n => ⟨le_refl 0, by norm_num [zeroStream]⟩,
    bedrock_permanent DEFAULT_BIOME zeroStream
      (fun n => ⟨le_refl 0, by norm_num [zeroStream]⟩)
      (1/2) [(inputsMine, 300)] pResting 0 (0, 0)⟩

end PocketCraft
